import Mathlib

/-!
# Verification of the streaming reconstruction engine
  (`src/agents/pi-embedded-subscribe.handlers.messages.ts`)

Shallow embedding of the assistant-message streaming handlers
(`handleMessageStart`, `handleMessageUpdate`, `handleMessageEnd`) and the
`stripTrailingDirective` helper.  JavaScript strings are modelled as
`List Char`; a missing/ill-typed `delta`/`content` field is the empty list and
a missing `contentIndex` is `-1`, exactly as the handlers coerce them.

External collaborators that live outside this file's source (the tag-stripping
state machine, the directive extractor, `emitBlockChunk`,
`resetAssistantMessageState`, `finalizeAssistantTexts`,
`normalizeTextForComparison`, the `pi-embedded-utils` extractors) are consumed
through an explicit `Externals` record of pure functions; theorems that do not
depend on their behaviour are proved for every instantiation.  Concrete runs
use `specExternals`, whose components are modelled from the specification and
are marked `Modelled from the spec:` in their doc comments.

The embedding fixes the configuration in which no block chunker is installed
(`ctx.blockChunker` null), so buffered block text flows through
`ctx.state.blockBuffer`, matching the `else` branches of the source.
Diagnostic logging (`appendRawStream`, `ctx.log.debug`) has no observable
effect on the session state or the output feeds and is omitted.
-/

/-- JS strings as lists of characters. -/
abbrev Str := List Char

/-- JS whitespace for `String.prototype.trim` (the characters exercised here). -/
def isWs (c : Char) : Bool :=
  c = ' ' || c = '\n' || c = '\t' || c = '\r'

/-- `text.trim()`: remove leading and trailing whitespace. -/
def trimChars (s : Str) : Str :=
  ((s.dropWhile isWs).reverse.dropWhile isWs).reverse

/-- Index of the first occurrence of `pat` in `s` (JS `indexOf`), if any. -/
def firstMatch (pat : Str) : Str → Option Nat
  | [] => if pat.isPrefixOf [] then some 0 else none
  | c :: r => if pat.isPrefixOf (c :: r) then some 0 else (firstMatch pat r).map (· + 1)

/-- JS `s.indexOf(pat, start)`. -/
def firstMatchFrom (pat s : Str) (start : Nat) : Option Nat :=
  (firstMatch pat (s.drop start)).map (· + start)

/-- Index of the last occurrence of `pat` in `s` (JS `lastIndexOf`), if any. -/
def lastMatch (pat : Str) : Str → Option Nat
  | [] => if pat.isPrefixOf [] then some 0 else none
  | c :: r =>
    match lastMatch pat r with
    | some i => some (i + 1)
    | none => if pat.isPrefixOf (c :: r) then some 0 else none

/-- JS `s.includes(pat)`. -/
def occursIn (pat s : Str) : Bool :=
  (firstMatch pat s).isSome

/-- The directive opener `[[`. -/
def dOpen : Str := ['[', '[']

/-- The directive closer `]]`. -/
def dClose : Str := [']', ']']

/-- Source `stripTrailingDirective` (lines 20-30): if the last `[[` has no
matching `]]` after it, cut the text at that opener; otherwise return the text
unchanged. -/
def stripTrailingDirective (text : Str) : Str :=
  match lastMatch dOpen text with
  | none => text
  | some openIndex =>
    match firstMatchFrom dClose text (openIndex + 2) with
    | some _ => text
    | none => text.take openIndex

/-- Tag-tracker state value (`{thinking, final, inlineCode}`).  The inline-code
sub-state (`createInlineCodeState`) lives outside `src/`; Modelled from the
spec: it records whether the position is inside inline code, a plain flag. -/
structure TagState where
  thinking : Bool
  final : Bool
  inlineCode : Bool
deriving DecidableEq, Repr

/-- A fresh tag state, `{thinking: false, final: false, inlineCode: createInlineCodeState()}`. -/
def freshTagState : TagState :=
  { thinking := false, final := false, inlineCode := false }

/-- Result of the directive extractor (`parseReplyDirectives` /
`consumeReplyDirectives`): cleaned text, media attachments, voice flag.
The reply-target fields are not inspected by any handler logic modelled here. -/
structure Parsed where
  text : Str
  mediaUrls : List Str
  audioAsVoice : Bool
deriving DecidableEq, Repr

/-- Sub-event types handled by `handleMessageUpdate`; `other` stands for every
unrecognized `type` value (ignored by the core, diagnostics aside). -/
inductive EvtType where
  | text_start
  | text_delta
  | text_end
  | other
deriving DecidableEq, Repr

/-- A `message_update` sub-event after the source's field coercions:
`delta`/`content` default to the empty string, `contentIndex` to `-1`. -/
structure SubEvent where
  type : EvtType
  delta : Str
  content : Str
  contentIndex : Int
deriving DecidableEq, Repr

/-- Message roles: only `assistant` is processed. -/
inductive Role where
  | assistant
  | otherRole
deriving DecidableEq, Repr

/-- A content block of the final message structure delivered at `message_end`. -/
inductive Block where
  | text (t : Str)
  | thinking (t : Str)
  | toolCall
  | otherBlock
deriving DecidableEq, Repr

/-- The final message carried by `message_end`. -/
structure EndMessage where
  role : Role
  content : List Block
deriving DecidableEq, Repr

/-- Observable outputs of the engine.  `assistantEvent` is the live update
published on the "assistant" stream (`emitAgentEvent`/`onAgentEvent`, which
carry the same payload); `progressReply` is the `onPartialReply` callback;
`blockReply` is the `onBlockReply` callback; `reasoningStream` is the
reasoning feed (`emitReasoningStream`). -/
inductive Output where
  | assistantEvent (text delta : Str) (mediaUrls : List Str)
  | progressReply (text : Str) (mediaUrls : List Str)
  | blockReply (text : Str) (mediaUrls : List Str) (audioAsVoice : Bool)
  | reasoningStream (text : Str)
deriving DecidableEq, Repr

/-- `blockReplyBreak` configuration. -/
inductive BreakMode where
  | textEnd
  | messageEnd
deriving DecidableEq, Repr

/-- Static configuration of a subscription (presence of optional callbacks and
the reasoning/segmentation switches). -/
structure Config where
  streamReasoning : Bool
  includeReasoning : Bool
  blockReplyBreak : BreakMode
  hasOnBlockReply : Bool
  hasOnProgressReply : Bool
  shouldEmitProgressReplies : Bool
deriving DecidableEq, Repr

/-- Per-subscription message session state (`ctx.state`).  Field names follow
the source; `perBlockTagState` is the source's `partialBlockState` (reset per
block), `msgTagState` is the source's `blockState` (message-wide), and
`pendingDirectiveState` is the buffered state of the incremental directive
consumer (a ctx-internal value outside `src/`, modelled as buffered text). -/
structure SessState where
  currentTextContentIndex : Int
  deltaBuffer : Str
  cumulativeStreamedText : Str
  blockBuffer : Str
  lastStreamedAssistant : Option Str
  lastStreamedAssistantCleaned : Option Str
  emittedAssistantUpdate : Bool
  perBlockTagState : TagState
  msgTagState : TagState
  lastBlockReplyText : Option Str
  lastReasoningSent : Option Str
  messagingToolSentTextsNormalized : List Str
  assistantTexts : List Str
  assistantTextBaseline : Nat
  pendingDirectiveState : Str
deriving DecidableEq, Repr

/-- State at subscription setup. -/
def initialState : SessState where
  currentTextContentIndex := -1
  deltaBuffer := []
  cumulativeStreamedText := []
  blockBuffer := []
  lastStreamedAssistant := none
  lastStreamedAssistantCleaned := none
  emittedAssistantUpdate := false
  perBlockTagState := freshTagState
  msgTagState := freshTagState
  lastBlockReplyText := none
  lastReasoningSent := none
  messagingToolSentTextsNormalized := []
  assistantTexts := []
  assistantTextBaseline := 0
  pendingDirectiveState := []

/-- The pure external collaborators consumed by the handlers.  Each field is
the interface of a function imported from outside this source file; theorems
quantified over `Externals` hold for every behaviour of those collaborators. -/
structure Externals where
  stripBlockTags : Str → TagState → Str × TagState
  parseReplyDirectives : Str → Parsed
  consumeStreamingDirectives : Str → Str → Option Parsed × Str
  consumeFinalDirectives : Str → Str → Option Parsed × Str
  normalize : Str → Str
  extractAssistantText : EndMessage → Str
  extractAssistantThinking : EndMessage → Str
  extractThinkingTagged : Str → Str
  extractThinkingStream : Str → Str
  formatReasoning : Str → Str
  promoteThinking : EndMessage → EndMessage

/-- Modelled from the spec: `ctx.emitBlockChunk` delivers one block-reply
chunk, deduplicating by normalized text against the accumulated sent-text
dedup state (which also honors out-of-band messaging-tool sends), never
emitting an empty chunk, and appending the flushed block to `assistantTexts`
(one entry per flushed block). -/
def emitBlockChunkModel (ext : Externals) (s : SessState) (t : Str) :
    SessState × List Output :=
  if t = [] then (s, [])
  else
    let n := ext.normalize t
    if s.messagingToolSentTextsNormalized.contains n then (s, [])
    else
      ({ s with
          messagingToolSentTextsNormalized := n :: s.messagingToolSentTextsNormalized,
          lastBlockReplyText := some t,
          assistantTexts := s.assistantTexts ++ [t] },
        [Output.blockReply t [] false])

/-- Source lines 176-217, body of the content-block boundary branch: flush the
pending `blockBuffer` through the block-chunk emitter, reset the per-block
accumulators (`deltaBuffer`, `lastStreamedAssistantCleaned`,
`emittedAssistantUpdate`, `partialBlockState` — not the message-wide
`blockState`), and append a newline separator to the cumulative text when it
is non-empty. -/
def boundaryTransition (ext : Externals) (s : SessState) : SessState × List Output :=
  let fl :=
    if s.blockBuffer ≠ [] then
      let r := emitBlockChunkModel ext s s.blockBuffer
      ({ r.1 with blockBuffer := [] }, r.2)
    else (s, [])
  let s2 :=
    { fl.1 with
        deltaBuffer := [],
        lastStreamedAssistantCleaned := none,
        emittedAssistantUpdate := false,
        perBlockTagState := freshTagState }
  let s3 :=
    if s2.cumulativeStreamedText ≠ ([] : Str) then
      { s2 with cumulativeStreamedText := s2.cumulativeStreamedText ++ ['\n'] }
    else s2
  (s3, fl.2)

/-- Source lines 224-241: defensive chunk extraction.  `text_delta` yields the
delta verbatim; `text_start`/`text_end` prefer a non-empty delta, otherwise
diff a resent `content` against the accumulated `deltaBuffer`. -/
def computeChunk (t : EvtType) (delta content buf : Str) : Str :=
  match t with
  | EvtType.text_delta => delta
  | EvtType.other => []
  | _ =>
    if delta ≠ [] then delta
    else if content ≠ [] then
      if buf.isPrefixOf content then content.drop buf.length
      else if content.isPrefixOf buf then []
      else if ¬ occursIn content buf then content
      else []
    else []

/-- Source line 257-263: strip tags from the whole `deltaBuffer` against a
throwaway fresh tag state and trim, yielding `next`. -/
def nextOf (ext : Externals) (s : SessState) : Str :=
  trimChars (ext.stripBlockTags s.deltaBuffer freshTagState).1

/-- Source line 268: `cleanedText`, the full-mode directive extraction of
`next` after removing a trailing unterminated directive opener. -/
def cleanedOf (ext : Externals) (s : SessState) : Str :=
  (ext.parseReplyDirectives (stripTrailingDirective (nextOf ext s))).text

/-- Source line 265: `visibleDelta`, the incremental tag-strip of the new
chunk against the running per-block tag state (which it advances). -/
def visibleDeltaOf (ext : Externals) (s : SessState) (chunk : Str) : Str × TagState :=
  if chunk ≠ [] then ext.stripBlockTags chunk s.perBlockTagState
  else ([], s.perBlockTagState)

/-- Source line 266: `parsedDelta`, the partial-mode directive consumption of
`visibleDelta` (threading the consumer's internal state). -/
def parsedDeltaOf (ext : Externals) (s : SessState) (chunk : Str) : Option Parsed × Str :=
  if (visibleDeltaOf ext s chunk).1 ≠ [] then
    ext.consumeStreamingDirectives s.pendingDirectiveState (visibleDeltaOf ext s chunk).1
  else (none, s.pendingDirectiveState)

/-- Source line 272: `previousCleaned = ctx.state.lastStreamedAssistantCleaned ?? ""`. -/
def prevCleanedOf (s : SessState) : Str :=
  s.lastStreamedAssistantCleaned.getD []

/-- Source line 281: the new delta to emit, `cleanedText.slice(previousCleaned.length)`. -/
def deltaTextOf (ext : Externals) (s : SessState) : Str :=
  (cleanedOf ext s).drop (prevCleanedOf s).length

/-- Source line 269: the media attachments of the partial directive result. -/
def mediaUrlsOf (ext : Externals) (s : SessState) (chunk : Str) : List Str :=
  (((parsedDeltaOf ext s chunk).1).map Parsed.mediaUrls).getD []

/-- Source line 271: the voice-audio flag of the partial directive result. -/
def hasAudioOf (ext : Externals) (s : SessState) (chunk : Str) : Bool :=
  (((parsedDeltaOf ext s chunk).1).map Parsed.audioAsVoice).getD false

/-- Source lines 274-283: the emission decision — whether to emit and which
delta to carry.  Nothing is emitted when there is no cleaned text, media or
audio, or when the cleaned text regressed (does not extend the previously
streamed cleaned text); otherwise the delta is the cleaned text with the
previous cleaned prefix removed and emission requires it non-empty or a media
or audio flag. -/
def emitDecision (ext : Externals) (s : SessState) (chunk : Str) : Bool × Str :=
  if cleanedOf ext s = [] ∧ ¬ mediaUrlsOf ext s chunk ≠ ([] : List Str) ∧
      ¬ hasAudioOf ext s chunk then (false, ([] : Str))
  else if prevCleanedOf s ≠ [] ∧
      ¬ (prevCleanedOf s).isPrefixOf (cleanedOf ext s) then (false, ([] : Str))
  else
    (deltaTextOf ext s ≠ [] ∨ mediaUrlsOf ext s chunk ≠ ([] : List Str) ∨
      hasAudioOf ext s chunk, deltaTextOf ext s)

/-- Source lines 257-322: the emission step.  When the stripped, trimmed
buffer is non-empty, compute the cleaned text, guard against a cleaned-text
regression, and emit a live assistant update (and optionally a progress
reply) carrying the cumulative text and the new delta. -/
def emissionPhase (ext : Externals) (cfg : Config) (s : SessState) (chunk : Str) :
    SessState × List Output :=
  let next := nextOf ext s
  if next = [] then (s, [])
  else
    let vd := visibleDeltaOf ext s chunk
    let s1 := { s with perBlockTagState := vd.2 }
    let pd := parsedDeltaOf ext s chunk
    let s2 := { s1 with pendingDirectiveState := pd.2 }
    let mediaUrls := mediaUrlsOf ext s chunk
    let hasMedia := mediaUrls ≠ ([] : List Str)
    let dec := emitDecision ext s chunk
    let s3 :=
      { s2 with
          lastStreamedAssistant := some next,
          lastStreamedAssistantCleaned := some (cleanedOf ext s) }
    if dec.1 then
      let s4 :=
        { s3 with
            cumulativeStreamedText := s3.cumulativeStreamedText ++ dec.2,
            emittedAssistantUpdate := true }
      let media := if hasMedia then mediaUrls else []
      let pr :=
        if cfg.hasOnProgressReply ∧ cfg.shouldEmitProgressReplies then
          [Output.progressReply s4.cumulativeStreamedText media]
        else []
      (s4, Output.assistantEvent s4.cumulativeStreamedText dec.2 media :: pr)
    else (s3, [])

/-- Source lines 324-336: after every update, when segmentation triggers on
`text_end`, force-flush the pending block buffer on a `text_end` sub-event
(the non-forced chunker drain of line 325 is a no-op with no chunker). -/
def textEndFlush (ext : Externals) (cfg : Config) (s : SessState) (t : EvtType) :
    SessState × List Output :=
  if t = EvtType.text_end ∧ cfg.blockReplyBreak = BreakMode.textEnd then
    if s.blockBuffer ≠ [] then
      let r := emitBlockChunkModel ext s s.blockBuffer
      ({ r.1 with blockBuffer := [] }, r.2)
    else (s, [])
  else (s, [])

/-- Source lines 219-222: track the incoming content index when non-negative. -/
def indexTracked (s : SessState) (sub : SubEvent) : SessState :=
  if 0 ≤ sub.contentIndex then { s with currentTextContentIndex := sub.contentIndex }
  else s

/-- Source lines 224-241: the chunk the event contributes, diffed against the
current delta buffer. -/
def chunkOf (s : SessState) (sub : SubEvent) : Str :=
  computeChunk sub.type sub.delta sub.content (indexTracked s sub).deltaBuffer

/-- Source lines 243-250: append a non-empty chunk to the delta buffer and the
block buffer. -/
def bufferedState (s : SessState) (sub : SubEvent) : SessState :=
  if chunkOf s sub ≠ [] then
    { indexTracked s sub with
        deltaBuffer := (indexTracked s sub).deltaBuffer ++ chunkOf s sub,
        blockBuffer := (indexTracked s sub).blockBuffer ++ chunkOf s sub }
  else indexTracked s sub

/-- Source lines 219-336 after the staleness/boundary checks: track the
incoming index, extract and append the chunk, stream reasoning if enabled,
run the emission step, then the `text_end` flush. -/
def updateCore (ext : Externals) (cfg : Config) (s : SessState) (sub : SubEvent) :
    SessState × List Output :=
  let s3 := bufferedState s sub
  let oR :=
    if cfg.streamReasoning then
      let r := ext.extractThinkingStream s3.deltaBuffer
      if r ≠ [] then [Output.reasoningStream r] else []
    else []
  let e := emissionPhase ext cfg s3 (chunkOf s sub)
  let f := textEndFlush ext cfg e.1 sub.type
  (f.1, oR ++ e.2 ++ f.2)

/-- Source `handleMessageUpdate` (lines 61-337): ignore non-assistant messages
and unrecognized sub-event types, discard stale events from already-closed
blocks, handle a content-block boundary, then run the core update. -/
def handleMessageUpdate (ext : Externals) (cfg : Config) (s : SessState)
    (role : Role) (sub : SubEvent) : SessState × List Output :=
  if role ≠ Role.assistant then (s, [])
  else if sub.type = EvtType.other then (s, [])
  else if 0 ≤ sub.contentIndex ∧ 0 ≤ s.currentTextContentIndex ∧
      sub.contentIndex < s.currentTextContentIndex then (s, [])
  else if 0 ≤ sub.contentIndex ∧ sub.contentIndex ≠ s.currentTextContentIndex ∧
      0 ≤ s.currentTextContentIndex then
    let b := boundaryTransition ext s
    let r := updateCore ext cfg b.1 sub
    (r.1, b.2 ++ r.2)
  else updateCore ext cfg s sub

/-- Returns the length of the match when `s` begins with a `<final>` or
`</final>` tag as matched by the source regex `/<\s*\/?\s*final\s*>/gi`
(line 481): `<`, optional whitespace, optional `/`, optional whitespace,
`final` case-insensitively, optional whitespace, `>`. -/
def matchFinalTagAt (s : Str) : Option Nat :=
  match s with
  | '<' :: r =>
    let w1 := (r.takeWhile isWs).length
    let r1 := r.drop w1
    let sl : Nat := match r1 with | '/' :: _ => 1 | _ => 0
    let r2 := r1.drop sl
    let w2 := (r2.takeWhile isWs).length
    let r3 := r2.drop w2
    match r3 with
    | a :: b :: c :: d :: e :: r4 =>
      if a.toLower = 'f' ∧ b.toLower = 'i' ∧ c.toLower = 'n' ∧ d.toLower = 'a' ∧
          e.toLower = 'l' then
        let w3 := (r4.takeWhile isWs).length
        let r5 := r4.drop w3
        match r5 with
        | '>' :: _ => some (1 + w1 + sl + w2 + 5 + w3 + 1)
        | _ => none
      else none
    | _ => none
  | _ => none

/-- Fuel-indexed left-to-right removal of all `<final>`/`</final>` tags; each
step consumes at least one character, so length-many fuel suffices. -/
def removeFinalTagsFuel : Nat → Str → Str
  | 0, s => s
  | _, [] => []
  | fuel + 1, c :: r =>
    match matchFinalTagAt (c :: r) with
    | some n => removeFinalTagsFuel fuel ((c :: r).drop n)
    | none => c :: removeFinalTagsFuel fuel r

/-- Source line 481: `rawTrimmed.replace(/<\s*\/?\s*final\s*>/gi, "")`. -/
def removeFinalTags (s : Str) : Str :=
  removeFinalTagsFuel s.length s

/-- The values `handleMessageEnd` derives from the final message structure
(source lines 455-489): raw/stripped/cleaned text, media, and reasoning. -/
structure EndInfo where
  rawText : Str
  text : Str
  rawThinking : Str
  formattedReasoning : Str
  cleanedText : Str
  mediaUrls : List Str
deriving DecidableEq, Repr

/-- Source lines 455-489: promote inline thinking tags, extract and tag-strip
the authoritative text, derive reasoning, run the directive extractor over the
trimmed text, and fall back to the raw text (with `<final>` tags removed) when
cleaning produced nothing. -/
def endDerived (ext : Externals) (cfg : Config) (msg : EndMessage) : EndInfo :=
  let msg2 := ext.promoteThinking msg
  let rawText := ext.extractAssistantText msg2
  let text := (ext.stripBlockTags rawText freshTagState).1
  let rawThinking :=
    if cfg.includeReasoning ∨ cfg.streamReasoning then
      let a := ext.extractAssistantThinking msg2
      if a ≠ ([] : Str) then a else ext.extractThinkingTagged rawText
    else []
  let formattedReasoning :=
    if rawThinking ≠ ([] : Str) then ext.formatReasoning rawThinking else []
  let trimmedText := trimChars text
  let p :=
    if trimmedText ≠ ([] : Str) then
      some (ext.parseReplyDirectives (stripTrailingDirective trimmedText))
    else none
  let cleanedText := (p.map Parsed.text).getD []
  let mediaUrls := (p.map Parsed.mediaUrls).getD []
  let hasMedia := mediaUrls ≠ ([] : List Str)
  let cm :=
    if cleanedText = ([] : Str) ∧ ¬ hasMedia then
      let rawTrimmed := trimChars rawText
      let rawStrippedFinal := trimChars (removeFinalTags rawTrimmed)
      let rawCandidate :=
        if rawStrippedFinal ≠ ([] : Str) then rawStrippedFinal else rawTrimmed
      if rawCandidate ≠ ([] : Str) then
        let pf := ext.parseReplyDirectives (stripTrailingDirective rawCandidate)
        (pf.text, pf.mediaUrls)
      else (cleanedText, mediaUrls)
    else (cleanedText, mediaUrls)
  { rawText := rawText, text := text, rawThinking := rawThinking,
    formattedReasoning := formattedReasoning, cleanedText := cm.1,
    mediaUrls := cm.2 }

/-- Modelled from the spec: `ctx.finalizeAssistantTexts` appends the
authoritative per-message text to `assistantTexts`, unless blocks were already
flushed individually during the message (to avoid double-counting) or the
text is empty. -/
def finalizeAssistantTextsModel (s : SessState) (text : Str) (added : Bool) :
    SessState :=
  if added ∨ text = ([] : Str) then s
  else { s with assistantTexts := s.assistantTexts ++ [text] }

/-- Source lines 571-580 and 604-613, the shared emit-if-content pattern: a
block reply is emitted from a final directive-consumption result exactly when
it carries text, media, or the voice flag. -/
def parsedReplyOut (o : Option Parsed) : List Output :=
  match o with
  | some r =>
    if r.text ≠ ([] : Str) ∨ r.mediaUrls ≠ ([] : List Str) ∨ r.audioAsVoice then
      [Output.blockReply r.text r.mediaUrls r.audioAsVoice]
    else []
  | none => []

/-- Source lines 491-510: the at-least-one-update fallback — when no live
update was flagged and final cleaned text or media exist, publish one
assistant event carrying the cleaned text as both `text` and `delta`. -/
def endFallback (d : EndInfo) (s : SessState) : SessState × List Output :=
  if ¬ s.emittedAssistantUpdate ∧
      (d.cleanedText ≠ ([] : Str) ∨ d.mediaUrls ≠ ([] : List Str)) then
    ({ s with emittedAssistantUpdate := true },
      [Output.assistantEvent d.cleanedText d.cleanedText
        (if d.mediaUrls ≠ ([] : List Str) then d.mediaUrls else [])])
  else (s, [])

/-- Source lines 525-531: `maybeEmitReasoning`, emitting the formatted
reasoning as a block reply and recording it in `lastReasoningSent`. -/
def endReasoningStep (formatted : Str) (fire : Prop) [Decidable fire]
    (s : SessState) : SessState × List Output :=
  if fire then
    ({ s with lastReasoningSent := some formatted },
      [Output.blockReply formatted [] false])
  else (s, [])

/-- Source lines 537-584: the final block reply for the terminal text, guarded
by the last-reply and messaging-tool dedup checks (no chunker installed, so
the chunker drain branch is vacant). -/
def endMainReply (ext : Externals) (cfg : Config) (d : EndInfo) (s : SessState) :
    SessState × List Output :=
  if (cfg.blockReplyBreak = BreakMode.messageEnd ∨ s.blockBuffer ≠ ([] : Str)) ∧
      d.text ≠ ([] : Str) ∧ cfg.hasOnBlockReply then
    if s.lastBlockReplyText ≠ some d.text then
      if s.messagingToolSentTextsNormalized.contains (ext.normalize d.text) then (s, [])
      else
        let s4 := { s with lastBlockReplyText := some d.text }
        let c := ext.consumeFinalDirectives s4.pendingDirectiveState d.text
        ({ s4 with pendingDirectiveState := c.2 }, parsedReplyOut c.1)
    else (s, [])
  else (s, [])

/-- Source lines 593-615: when segmenting on `text_end`, drain the tail of the
directive consumer at message end. -/
def endTailFlush (ext : Externals) (cfg : Config) (s : SessState) :
    SessState × List Output :=
  if cfg.blockReplyBreak = BreakMode.textEnd ∧ cfg.hasOnBlockReply then
    let c := ext.consumeFinalDirectives s.pendingDirectiveState []
    ({ s with pendingDirectiveState := c.2 }, parsedReplyOut c.1)
  else (s, [])

/-- Source lines 617-624: reset the per-message buffers and tag state. -/
def endResets (s : SessState) : SessState :=
  { s with
      deltaBuffer := [], blockBuffer := [], msgTagState := freshTagState,
      lastStreamedAssistant := none, lastStreamedAssistantCleaned := none }

/-- Source `handleMessageEnd` (lines 339-625): derive the authoritative text,
emit the at-least-one-update fallback when no live update was flagged,
finalize `assistantTexts`, emit reasoning and the final block reply with
dedup checks, flush the tail of the directive consumer when segmenting on
`text_end`, and reset the per-message buffers. -/
def handleMessageEnd (ext : Externals) (cfg : Config) (s : SessState)
    (msg : EndMessage) : SessState × List Output :=
  if msg.role ≠ Role.assistant then (s, [])
  else
    let d := endDerived ext cfg msg
    let fb := endFallback d s
    let s1 := fb.1
    let addedDuringMessage := s1.assistantTextBaseline < s1.assistantTexts.length
    let s2 := finalizeAssistantTextsModel s1 d.text addedDuringMessage
    let shouldEmitReasoning :=
      cfg.includeReasoning ∧ d.formattedReasoning ≠ ([] : Str) ∧ cfg.hasOnBlockReply ∧
        s2.lastReasoningSent ≠ some d.formattedReasoning
    let reasoningBefore :=
      shouldEmitReasoning ∧ cfg.blockReplyBreak = BreakMode.messageEnd ∧
        ¬ addedDuringMessage
    let r1 := endReasoningStep d.formattedReasoning reasoningBefore s2
    let mainB := endMainReply ext cfg d r1.1
    let r2 := endReasoningStep d.formattedReasoning
      (shouldEmitReasoning ∧ ¬ reasoningBefore) mainB.1
    let oRS :=
      if cfg.streamReasoning ∧ d.rawThinking ≠ ([] : Str) then
        [Output.reasoningStream d.rawThinking]
      else []
    let tailB := endTailFlush ext cfg r2.1
    (endResets tailB.1, fb.2 ++ r1.2 ++ mainB.2 ++ r2.2 ++ oRS ++ tailB.2)

/-- Modelled from the spec: `ctx.resetAssistantMessageState(baseline)` resets
the whole per-message session state at an assistant `message_start` (the only
reliable reset boundary), capturing the current `assistantTexts` length as the
baseline and keeping the append-only `assistantTexts` itself. -/
def resetAssistantMessageState (s : SessState) : SessState :=
  { initialState with
      assistantTexts := s.assistantTexts,
      assistantTextBaseline := s.assistantTexts.length }

/-- Source `handleMessageStart` (lines 32-59): reset the assistant message
state for assistant messages and ignore the rest. -/
def handleMessageStart (s : SessState) (role : Role) : SessState × List Output :=
  if role ≠ Role.assistant then (s, [])
  else (resetAssistantMessageState s, [])

/-- A session event as delivered by the subscription. -/
inductive Event where
  | msgStart (role : Role)
  | msgUpdate (role : Role) (sub : SubEvent)
  | msgEnd (msg : EndMessage)
deriving DecidableEq, Repr

/-- Dispatch one event to its handler. -/
def stepEvent (ext : Externals) (cfg : Config) (s : SessState) :
    Event → SessState × List Output
  | Event.msgStart role => handleMessageStart s role
  | Event.msgUpdate role sub => handleMessageUpdate ext cfg s role sub
  | Event.msgEnd msg => handleMessageEnd ext cfg s msg

/-- Run a list of session events, collecting outputs in order. -/
def runEvents (ext : Externals) (cfg : Config) : SessState → List Event →
    SessState × List Output
  | s, [] => (s, [])
  | s, e :: rest =>
    let r := stepEvent ext cfg s e
    let r2 := runEvents ext cfg r.1 rest
    (r2.1, r.2 ++ r2.2)

/-- Run a list of assistant `message_update` sub-events. -/
def runUpdates (ext : Externals) (cfg : Config) : SessState → List SubEvent →
    SessState × List Output
  | s, [] => (s, [])
  | s, e :: rest =>
    let r := handleMessageUpdate ext cfg s Role.assistant e
    let r2 := runUpdates ext cfg r.1 rest
    (r2.1, r.2 ++ r2.2)

/-- The live assistant-stream events among a list of outputs,
as `(text, delta, mediaUrls)` triples. -/
def assistantEventsOf (l : List Output) : List (Str × Str × List Str) :=
  l.filterMap fun o =>
    match o with
    | Output.assistantEvent t d m => some (t, d, m)
    | _ => none

/-- The `data.text` values of the live assistant-stream events, in order. -/
def assistantTextsOf (l : List Output) : List Str :=
  (assistantEventsOf l).map (·.1)

/-- The texts of the block replies among a list of outputs, in order. -/
def blockRepliesOf (l : List Output) : List Str :=
  l.filterMap fun o =>
    match o with
    | Output.blockReply t _ _ => some t
    | _ => none

/-- Fuel-indexed removal of complete `[[...]]` directive spans, left to right;
each removal drops at least the two closer characters, so length-many fuel
suffices. -/
def removeDirectivesFuel : Nat → Str → Str
  | 0, s => s
  | fuel + 1, s =>
    match firstMatch dOpen s with
    | none => s
    | some i =>
      match firstMatchFrom dClose s (i + 2) with
      | none => s
      | some j => s.take i ++ removeDirectivesFuel fuel (s.drop (j + 2))

/-- Modelled from the spec: the directive grammar is consumed as a pure
function `text → {cleaned text, media urls, flags}`; directives are inline
`[[...]]` markers stripped before display.  This minimal model removes every
complete `[[...]]` span and carries no media or voice flags. -/
def removeDirectives (s : Str) : Str :=
  removeDirectivesFuel s.length s

/-- Modelled from the spec: full-mode directive extraction
(`parseReplyDirectives`). -/
def specParse (t : Str) : Parsed :=
  { text := removeDirectives t, mediaUrls := [], audioAsVoice := false }

/-- Modelled from the spec: `normalizeTextForComparison` — texts compare equal
for dedup purposes up to surrounding whitespace and letter case. -/
def specNormalize (t : Str) : Str :=
  (trimChars t).map Char.toLower

/-- Modelled from the spec: `extractAssistantText` joins the text blocks of
the final message with a newline (the `"\n"` join the boundary separator
mirrors). -/
def specExtractText (m : EndMessage) : Str :=
  List.intercalate ['\n']
    (m.content.filterMap fun b =>
      match b with
      | Block.text t => some t
      | _ => none)

/-- Modelled from the spec: `extractAssistantThinking` joins the thinking
blocks of the final message with a newline. -/
def specExtractThinking (m : EndMessage) : Str :=
  List.intercalate ['\n']
    (m.content.filterMap fun b =>
      match b with
      | Block.thinking t => some t
      | _ => none)

/-- Modelled from the spec: the concrete instantiation of the external
collaborators used for closed runs.  The tag-stripping machine is the
identity transformer (the scenario texts carry no thinking/final/inline-code
tags), the directive extractor is `specParse`, the incremental consumer
parses the span it is given, and the final-mode consumer drains its buffered
state into a final parse. -/
def specExternals : Externals where
  stripBlockTags := fun t st => (t, st)
  parseReplyDirectives := specParse
  consumeStreamingDirectives := fun pds t => (some (specParse t), pds)
  consumeFinalDirectives := fun pds t => (some (specParse (pds ++ t)), [])
  normalize := specNormalize
  extractAssistantText := specExtractText
  extractAssistantThinking := specExtractThinking
  extractThinkingTagged := fun _ => []
  extractThinkingStream := fun _ => []
  formatReasoning := fun t => t
  promoteThinking := fun m => m

section MatchLemmas

lemma firstMatch_eq_none_iff (pat s : Str) :
    firstMatch pat s = none ↔ ∀ i, pat.isPrefixOf (s.drop i) = false := by
  induction s with
  | nil =>
    constructor
    · intro h i
      simp only [firstMatch] at h
      cases hp : pat.isPrefixOf ([] : Str) with
      | true => simp [hp] at h
      | false => simpa using hp
    · intro h
      simp only [firstMatch]
      have := h 0
      simp only [List.drop_nil] at this
      simp [this]
  | cons c r ih =>
    simp only [firstMatch]
    cases hp : pat.isPrefixOf (c :: r) with
    | true =>
      simp only [if_pos rfl]
      constructor
      · intro h; cases h
      · intro h
        have := h 0
        simp only [List.drop] at this
        rw [hp] at this
        cases this
    | false =>
      simp only [Bool.false_eq_true, if_false]
      constructor
      · intro h i
        cases i with
        | zero => simpa using hp
        | succ j =>
          have hr : firstMatch pat r = none := by
            cases hfm : firstMatch pat r with
            | none => rfl
            | some k => rw [hfm] at h; cases h
          exact (ih.mp hr) j
      · intro h
        have hr : firstMatch pat r = none := ih.mpr (fun i => h (i + 1))
        simp [hr]

lemma occursIn_eq_false_iff (pat s : Str) :
    occursIn pat s = false ↔ ∀ i, pat.isPrefixOf (s.drop i) = false := by
  unfold occursIn
  rw [← firstMatch_eq_none_iff]
  cases firstMatch pat s <;> simp

lemma lastMatch_eq_none_iff (pat s : Str) :
    lastMatch pat s = none ↔ ∀ i, pat.isPrefixOf (s.drop i) = false := by
  induction s with
  | nil =>
    simp only [lastMatch]
    cases hp : pat.isPrefixOf ([] : Str) <;>
      simp [hp]
  | cons c r ih =>
    simp only [lastMatch]
    cases hm : lastMatch pat r with
    | some k =>
      constructor
      · intro h; cases h
      · intro h
        have hr : lastMatch pat r = none := ih.mpr (fun i => h (i + 1))
        rw [hm] at hr; cases hr
    | none =>
      cases hp : pat.isPrefixOf (c :: r) with
      | true =>
        simp only [if_pos rfl]
        constructor
        · intro h; cases h
        · intro h
          have := h 0
          simp only [List.drop] at this
          rw [hp] at this; cases this
      | false =>
        simp only [Bool.false_eq_true, if_false]
        constructor
        · intro _ i
          cases i with
          | zero => simpa using hp
          | succ j => exact (ih.mp hm) j
        · intro _; trivial

lemma lastMatch_cons_some {pat r : Str} {c : Char} {i : Nat}
    (h : lastMatch pat r = some i) : lastMatch pat (c :: r) = some (i + 1) := by
  simp [lastMatch, h]

lemma lastMatch_append_right {pat t : Str} {i : Nat} (a : Str)
    (h : lastMatch pat t = some i) : lastMatch pat (a ++ t) = some (a.length + i) := by
  induction a with
  | nil => simpa using h
  | cons c a' ih =>
    have := lastMatch_cons_some (c := c) ih
    simpa [Nat.succ_add] using this

lemma lastMatch_exact {pat b : Str} (hne : pat ≠ [])
    (h : ∀ i, pat.isPrefixOf ((pat ++ b).drop (i + 1)) = false) :
    lastMatch pat (pat ++ b) = some 0 := by
  obtain ⟨p, pr, rfl⟩ : ∃ p pr, pat = p :: pr := by
    cases pat with
    | nil => exact absurd rfl hne
    | cons p pr => exact ⟨p, pr, rfl⟩
  have hrest : lastMatch (p :: pr) (pr ++ b) = none := by
    rw [lastMatch_eq_none_iff]
    intro i
    have := h i
    simpa using this
  have hpre : (p :: pr).isPrefixOf ((p :: pr) ++ b) = true := by
    rw [List.isPrefixOf_iff_prefix]
    exact List.prefix_append _ _
  show lastMatch (p :: pr) (p :: (pr ++ b)) = some 0
  simp [lastMatch, hrest, hpre]

end MatchLemmas

/-- Concrete strings used by witnesses, counterexamples and scenarios. -/
def txtHiSp : Str := "Hi ".toList

def txtSnip : Str := "snip".toList

/-- C9 — Trailing unterminated directive removal: writing the text as
`a ++ "[[" ++ b` where the displayed `[[` is the last opener (no further `[[`
starts at or after its second bracket), directive parsing receives `a` when no
`]]` follows, and the unchanged text when one does. -/
theorem stripTrailingDirective_correct (a b : Str)
    (hOpen : occursIn dOpen ('[' :: b) = false) :
    (occursIn dClose b = false → stripTrailingDirective (a ++ (dOpen ++ b)) = a)
    ∧ (occursIn dClose b = true → stripTrailingDirective (a ++ (dOpen ++ b)) = a ++ (dOpen ++ b)) := by
  have hTail : ∀ i, dOpen.isPrefixOf ((dOpen ++ b).drop (i + 1)) = false := by
    intro i
    have := (occursIn_eq_false_iff dOpen ('[' :: b)).mp hOpen i
    show dOpen.isPrefixOf ((('[' :: '[' :: b) : Str).drop (i + 1)) = false
    simpa using this
  have hLast : lastMatch dOpen (a ++ (dOpen ++ b)) = some a.length := by
    have h0 : lastMatch dOpen (dOpen ++ b) = some 0 := lastMatch_exact (by decide) hTail
    simpa using lastMatch_append_right a h0
  have hDropEq : (a ++ (dOpen ++ b)).drop (a.length + 2) = b := by
    have h1 : (a ++ (dOpen ++ b)).drop a.length = dOpen ++ b := List.drop_left a _
    calc (a ++ (dOpen ++ b)).drop (a.length + 2)
        = ((a ++ (dOpen ++ b)).drop a.length).drop 2 := by
          rw [List.drop_drop]
      _ = (dOpen ++ b).drop 2 := by rw [h1]
      _ = b := rfl
  have h2 : (dOpen ++ b).drop 2 = b := rfl
  constructor
  · intro hClose
    have hNone : firstMatch dClose b = none := by
      rw [firstMatch_eq_none_iff]
      exact (occursIn_eq_false_iff dClose b).mp hClose
    simp [stripTrailingDirective, firstMatchFrom, hLast, hDropEq, h2, hNone, List.take_left]
  · intro hClose
    cases hfm : firstMatch dClose b with
    | none =>
      unfold occursIn at hClose
      rw [hfm] at hClose
      cases hClose
    | some j =>
      simp [stripTrailingDirective, firstMatchFrom, hLast, hDropEq, h2, hfm]

/-- Witness for C9 at the concrete text `"Hi [[snip"`. -/
theorem stripTrailingDirective_correct_witness :
    occursIn dOpen ('[' :: txtSnip) = false ∧ occursIn dClose txtSnip = false ∧
      stripTrailingDirective (txtHiSp ++ (dOpen ++ txtSnip)) = txtHiSp :=
  ⟨by decide, by decide,
    (stripTrailingDirective_correct txtHiSp txtSnip (by decide)).1 (by decide)⟩

/-- A concrete configuration segmenting at `message_end`, reasoning disabled. -/
def cfgMsgEnd : Config where
  streamReasoning := false
  includeReasoning := false
  blockReplyBreak := BreakMode.messageEnd
  hasOnBlockReply := true
  hasOnProgressReply := false
  shouldEmitProgressReplies := false

/-- A concrete configuration segmenting at `text_end`, reasoning disabled. -/
def cfgTextEnd : Config where
  streamReasoning := false
  includeReasoning := false
  blockReplyBreak := BreakMode.textEnd
  hasOnBlockReply := true
  hasOnProgressReply := false
  shouldEmitProgressReplies := false

section FactorLemmas

lemma handleMessageUpdate_plain (ext : Externals) (cfg : Config) (s : SessState)
    (sub : SubEvent) (ht : sub.type ≠ EvtType.other)
    (hNS : ¬(0 ≤ sub.contentIndex ∧ 0 ≤ s.currentTextContentIndex ∧
      sub.contentIndex < s.currentTextContentIndex))
    (hNB : ¬(0 ≤ sub.contentIndex ∧ sub.contentIndex ≠ s.currentTextContentIndex ∧
      0 ≤ s.currentTextContentIndex)) :
    handleMessageUpdate ext cfg s Role.assistant sub = updateCore ext cfg s sub := by
  simp [handleMessageUpdate, ht, hNS, hNB]

lemma handleMessageUpdate_boundary (ext : Externals) (cfg : Config) (s : SessState)
    (sub : SubEvent) (ht : sub.type ≠ EvtType.other)
    (h0 : 0 ≤ sub.contentIndex) (hcur : 0 ≤ s.currentTextContentIndex)
    (hgt : s.currentTextContentIndex < sub.contentIndex) :
    handleMessageUpdate ext cfg s Role.assistant sub =
      ((updateCore ext cfg (boundaryTransition ext s).1 sub).1,
        (boundaryTransition ext s).2 ++ (updateCore ext cfg (boundaryTransition ext s).1 sub).2) := by
  have hlt : ¬(sub.contentIndex < s.currentTextContentIndex) := by omega
  have hne : sub.contentIndex ≠ s.currentTextContentIndex := by omega
  simp [handleMessageUpdate, ht, hlt, h0, hne, hcur]

lemma emitBlockChunkModel_frame (ext : Externals) (s : SessState) (t : Str) :
    ((emitBlockChunkModel ext s t).1).deltaBuffer = s.deltaBuffer ∧
    ((emitBlockChunkModel ext s t).1).cumulativeStreamedText = s.cumulativeStreamedText ∧
    ((emitBlockChunkModel ext s t).1).msgTagState = s.msgTagState ∧
    ((emitBlockChunkModel ext s t).1).blockBuffer = s.blockBuffer ∧
    ((emitBlockChunkModel ext s t).1).perBlockTagState = s.perBlockTagState ∧
    ((emitBlockChunkModel ext s t).1).emittedAssistantUpdate = s.emittedAssistantUpdate ∧
    ((emitBlockChunkModel ext s t).1).lastStreamedAssistantCleaned = s.lastStreamedAssistantCleaned ∧
    ((emitBlockChunkModel ext s t).1).currentTextContentIndex = s.currentTextContentIndex ∧
    ((emitBlockChunkModel ext s t).1).pendingDirectiveState = s.pendingDirectiveState := by
  simp only [emitBlockChunkModel]
  split
  · simp
  · split <;> simp

lemma emitBlockChunkModel_no_assistant (ext : Externals) (s : SessState) (t : Str) :
    assistantEventsOf (emitBlockChunkModel ext s t).2 = [] := by
  simp only [emitBlockChunkModel]
  split
  · simp [assistantEventsOf]
  · split <;> simp [assistantEventsOf]

lemma boundaryTransition_no_assistant (ext : Externals) (s : SessState) :
    assistantEventsOf (boundaryTransition ext s).2 = [] := by
  simp only [boundaryTransition]
  split
  · exact emitBlockChunkModel_no_assistant ext s s.blockBuffer
  · simp [assistantEventsOf]

lemma textEndFlush_no_assistant (ext : Externals) (cfg : Config) (s : SessState)
    (t : EvtType) : assistantEventsOf (textEndFlush ext cfg s t).2 = [] := by
  simp only [textEndFlush]
  split
  · split
    · exact emitBlockChunkModel_no_assistant ext s s.blockBuffer
    · simp [assistantEventsOf]
  · simp [assistantEventsOf]

lemma emissionPhase_frame (ext : Externals) (cfg : Config) (s : SessState) (chunk : Str) :
    ((emissionPhase ext cfg s chunk).1).deltaBuffer = s.deltaBuffer ∧
    ((emissionPhase ext cfg s chunk).1).blockBuffer = s.blockBuffer ∧
    ((emissionPhase ext cfg s chunk).1).msgTagState = s.msgTagState ∧
    ((emissionPhase ext cfg s chunk).1).currentTextContentIndex = s.currentTextContentIndex ∧
    ((emissionPhase ext cfg s chunk).1).messagingToolSentTextsNormalized =
      s.messagingToolSentTextsNormalized ∧
    ((emissionPhase ext cfg s chunk).1).lastBlockReplyText = s.lastBlockReplyText ∧
    ((emissionPhase ext cfg s chunk).1).assistantTexts = s.assistantTexts := by
  simp only [emissionPhase]
  repeat' split
  all_goals simp

lemma textEndFlush_frame (ext : Externals) (cfg : Config) (s : SessState) (t : EvtType) :
    ((textEndFlush ext cfg s t).1).deltaBuffer = s.deltaBuffer ∧
    ((textEndFlush ext cfg s t).1).cumulativeStreamedText = s.cumulativeStreamedText ∧
    ((textEndFlush ext cfg s t).1).msgTagState = s.msgTagState ∧
    ((textEndFlush ext cfg s t).1).currentTextContentIndex = s.currentTextContentIndex ∧
    (((textEndFlush ext cfg s t).1).blockBuffer = s.blockBuffer ∨
      ((textEndFlush ext cfg s t).1).blockBuffer = []) := by
  simp only [textEndFlush]
  split
  · split
    · refine ⟨(emitBlockChunkModel_frame ext s s.blockBuffer).1, ?_, ?_, ?_, Or.inr rfl⟩
      · exact (emitBlockChunkModel_frame ext s s.blockBuffer).2.1
      · exact (emitBlockChunkModel_frame ext s s.blockBuffer).2.2.1
      · exact (emitBlockChunkModel_frame ext s s.blockBuffer).2.2.2.2.2.2.2.1
    · simp
  · simp

end FactorLemmas

/-- C1 — Staleness guard: a text sub-event whose non-negative `contentIndex`
is strictly below the non-negative current block index is discarded entirely —
the state is returned unchanged and no output of any kind is produced. -/
theorem handleMessageUpdate_stale_discard (ext : Externals) (cfg : Config)
    (s : SessState) (sub : SubEvent) (ht : sub.type ≠ EvtType.other)
    (h0 : 0 ≤ sub.contentIndex) (h1 : 0 ≤ s.currentTextContentIndex)
    (h2 : sub.contentIndex < s.currentTextContentIndex) :
    handleMessageUpdate ext cfg s Role.assistant sub = (s, []) := by
  simp [handleMessageUpdate, ht, h0, h1, h2]

def txtHello : Str := "Hello".toList

/-- Witness for C1: a late `text_end` for block 0 while block 2 is current. -/
theorem handleMessageUpdate_stale_discard_witness :
    (⟨EvtType.text_end, [], txtHello, 0⟩ : SubEvent).type ≠ EvtType.other ∧
      handleMessageUpdate specExternals cfgMsgEnd
        { initialState with currentTextContentIndex := 2 } Role.assistant
        ⟨EvtType.text_end, [], txtHello, 0⟩ =
        ({ initialState with currentTextContentIndex := 2 }, []) :=
  ⟨by decide,
    handleMessageUpdate_stale_discard specExternals cfgMsgEnd
      { initialState with currentTextContentIndex := 2 }
      ⟨EvtType.text_end, [], txtHello, 0⟩ (by decide) (by decide) (by decide) (by decide)⟩

def txtPartial : Str := "Partial".toList

def txtPartialTextDone : Str := "Partial text done".toList

def txtSpTextDone : Str := " text done".toList

/-- The C3 stream: deltas producing `"Partial"`, then a `text_end` that
resends the full content `"Partial text done"`. -/
def c3events : List Event :=
  [Event.msgStart Role.assistant,
   Event.msgUpdate Role.assistant ⟨EvtType.text_delta, txtPartial, [], -1⟩,
   Event.msgUpdate Role.assistant ⟨EvtType.text_end, [], txtPartialTextDone, -1⟩]

/-- C3 — Defensive chunk extraction for `text_start`/`text_end`: a non-empty
`delta` is the chunk; otherwise a non-empty `content` is diffed against
`deltaBuffer` — suffix when it extends the buffer, empty when the buffer
extends it, verbatim when it does not occur in the buffer at all; and in the
resent-full-content scenario the second live update appends exactly
`" text done"`. -/
theorem computeChunk_defensive (t : EvtType) (delta content buf : Str)
    (ht : t = EvtType.text_start ∨ t = EvtType.text_end) :
    (delta ≠ [] → computeChunk t delta content buf = delta)
    ∧ (delta = [] → content ≠ [] → buf.isPrefixOf content = true →
        computeChunk t delta content buf = content.drop buf.length)
    ∧ (delta = [] → content ≠ [] → content.isPrefixOf buf = true →
        computeChunk t delta content buf = [])
    ∧ (delta = [] → content ≠ [] → buf.isPrefixOf content = false →
        occursIn content buf = false → computeChunk t delta content buf = content)
    ∧ assistantEventsOf (runEvents specExternals cfgMsgEnd initialState c3events).2 =
        [(txtPartial, txtPartial, []), (txtPartialTextDone, txtSpTextDone, [])] := by
  refine ⟨?_, ?_, ?_, ?_, by decide⟩
  · intro hd
    obtain rfl | rfl := ht <;> simp [computeChunk, hd]
  · intro hd hc hpre
    obtain rfl | rfl := ht <;> simp [computeChunk, hd, hc, hpre]
  · intro hd hc hpre
    cases hbc : buf.isPrefixOf content with
    | true =>
      have hcb := List.isPrefixOf_iff_prefix.mp hpre
      have hbc2 := List.isPrefixOf_iff_prefix.mp hbc
      have heq : content = buf :=
        hcb.eq_of_length (le_antisymm hcb.length_le hbc2.length_le)
      subst heq
      obtain rfl | rfl := ht <;> simp [computeChunk, hd, hc, hbc]
    | false =>
      obtain rfl | rfl := ht <;> simp [computeChunk, hd, hc, hbc, hpre]
  · intro hd hc hnb hocc
    have hcp : content.isPrefixOf buf = false := by
      have := (occursIn_eq_false_iff content buf).mp hocc 0
      simpa using this
    obtain rfl | rfl := ht <;> simp [computeChunk, hd, hc, hnb, hcp, hocc]

/-- Witness for C3: after deltas totalling `"Partial"`, a `text_end` resending
`"Partial text done"` yields exactly the chunk `" text done"`. -/
theorem computeChunk_defensive_witness :
    txtPartial.isPrefixOf txtPartialTextDone = true ∧
      computeChunk EvtType.text_end [] txtPartialTextDone txtPartial = txtSpTextDone :=
  ⟨by decide,
    by
      have h := (computeChunk_defensive EvtType.text_end [] txtPartialTextDone txtPartial
        (Or.inr rfl)).2.1 rfl (by decide) (by decide)
      exact h.trans (by decide)⟩

/-- C10 — Implicit: a `text_start`/`text_end` carrying no delta and a content
that is neither a prefix-extension nor a prefix of `deltaBuffer` but occurs
inside it as a substring yields an empty chunk, and (absent staleness and
boundary) the handler leaves `deltaBuffer` untouched and appends nothing to
the block buffer (which is at most flushed empty). -/
theorem resendInternalSubstring_noop (ext : Externals) (cfg : Config)
    (s : SessState) (sub : SubEvent)
    (ht : sub.type = EvtType.text_start ∨ sub.type = EvtType.text_end)
    (hd : sub.delta = []) (hc : sub.content ≠ [])
    (hBufPre : s.deltaBuffer.isPrefixOf sub.content = false)
    (hContPre : sub.content.isPrefixOf s.deltaBuffer = false)
    (hOcc : occursIn sub.content s.deltaBuffer = true)
    (hNS : ¬(0 ≤ sub.contentIndex ∧ 0 ≤ s.currentTextContentIndex ∧
      sub.contentIndex < s.currentTextContentIndex))
    (hNB : ¬(0 ≤ sub.contentIndex ∧ sub.contentIndex ≠ s.currentTextContentIndex ∧
      0 ≤ s.currentTextContentIndex)) :
    computeChunk sub.type sub.delta sub.content s.deltaBuffer = []
    ∧ ((handleMessageUpdate ext cfg s Role.assistant sub).1).deltaBuffer = s.deltaBuffer
    ∧ (((handleMessageUpdate ext cfg s Role.assistant sub).1).blockBuffer = s.blockBuffer ∨
        ((handleMessageUpdate ext cfg s Role.assistant sub).1).blockBuffer = []) := by
  have ht' : sub.type ≠ EvtType.other := by
    obtain h | h := ht <;> simp [h]
  have hchunk : computeChunk sub.type sub.delta sub.content s.deltaBuffer = [] := by
    obtain h | h := ht <;>
      simp [computeChunk, h, hd, hc, hBufPre, hContPre, hOcc]
  refine ⟨hchunk, ?_⟩
  rw [handleMessageUpdate_plain ext cfg s sub ht' hNS hNB]
  have hitd : (indexTracked s sub).deltaBuffer = s.deltaBuffer := by
    unfold indexTracked; split <;> rfl
  have hitb : (indexTracked s sub).blockBuffer = s.blockBuffer := by
    unfold indexTracked; split <;> rfl
  have hch : chunkOf s sub = [] := by
    unfold chunkOf; rw [hitd]; exact hchunk
  have hbs : bufferedState s sub = indexTracked s sub := by
    unfold bufferedState; simp [hch]
  simp only [updateCore, hbs, hch]
  constructor
  · exact (textEndFlush_frame _ _ _ _).1.trans
      (((emissionPhase_frame _ _ _ _).1).trans hitd)
  · rcases (textEndFlush_frame _ _ _ _).2.2.2.2 with h1 | h1
    · exact Or.inl (h1.trans (((emissionPhase_frame _ _ _ _).2.1).trans hitb))
    · exact Or.inr h1

def txtAbc : Str := "abc".toList

def txtLoneB : Str := "b".toList

/-- The C10 witness event: a `text_end` resending `"b"` while the buffer holds `"abc"`. -/
def wSubC10 : SubEvent := ⟨EvtType.text_end, [], txtLoneB, -1⟩

/-- The C10 witness state. -/
def wStateC10 : SessState := { initialState with deltaBuffer := txtAbc }

/-- Witness for C10 at buffer `"abc"` and resent content `"b"`. -/
theorem resendInternalSubstring_noop_witness :
    occursIn wSubC10.content wStateC10.deltaBuffer = true ∧
      (computeChunk wSubC10.type wSubC10.delta wSubC10.content wStateC10.deltaBuffer = []
        ∧ ((handleMessageUpdate specExternals cfgMsgEnd wStateC10 Role.assistant wSubC10).1).deltaBuffer =
            wStateC10.deltaBuffer
        ∧ (((handleMessageUpdate specExternals cfgMsgEnd wStateC10 Role.assistant wSubC10).1).blockBuffer =
              wStateC10.blockBuffer ∨
            ((handleMessageUpdate specExternals cfgMsgEnd wStateC10 Role.assistant wSubC10).1).blockBuffer = [])) :=
  ⟨by decide,
    resendInternalSubstring_noop specExternals cfgMsgEnd wStateC10 wSubC10
      (Or.inr rfl) rfl (by decide) (by decide) (by decide) (by decide) (by decide) (by decide)⟩

lemma assistantEventsOf_append (l1 l2 : List Output) :
    assistantEventsOf (l1 ++ l2) = assistantEventsOf l1 ++ assistantEventsOf l2 :=
  List.filterMap_append l1 l2 _

lemma noAssist_parsedReplyOut (o : Option Parsed) :
    assistantEventsOf (parsedReplyOut o) = [] := by
  cases o with
  | none => simp [parsedReplyOut, assistantEventsOf]
  | some r =>
    simp only [parsedReplyOut]
    split <;> simp [assistantEventsOf]

lemma noAssist_pair_ite (c : Prop) [Decidable c] (p q : SessState × List Output)
    (hp : assistantEventsOf p.2 = []) (hq : assistantEventsOf q.2 = []) :
    assistantEventsOf (if c then p else q).2 = [] := by
  split
  · exact hp
  · exact hq

lemma noAssist_list_ite (c : Prop) [Decidable c] (p q : List Output)
    (hp : assistantEventsOf p = []) (hq : assistantEventsOf q = []) :
    assistantEventsOf (if c then p else q) = [] := by
  split
  · exact hp
  · exact hq

lemma endFallback_fires (d : EndInfo) (s : SessState)
    (h1 : s.emittedAssistantUpdate = false)
    (h2 : d.cleanedText ≠ ([] : Str) ∨ d.mediaUrls ≠ ([] : List Str)) :
    endFallback d s =
      ({ s with emittedAssistantUpdate := true },
        [Output.assistantEvent d.cleanedText d.cleanedText
          (if d.mediaUrls ≠ ([] : List Str) then d.mediaUrls else [])]) := by
  unfold endFallback
  rw [if_pos ⟨by simp [h1], h2⟩]

lemma endFallback_skips (d : EndInfo) (s : SessState)
    (h : s.emittedAssistantUpdate = true) : endFallback d s = (s, []) := by
  unfold endFallback
  rw [if_neg (fun hc => hc.1 h)]

lemma noAssist_endReasoningStep (f : Str) (c : Prop) [Decidable c] (s : SessState) :
    assistantEventsOf (endReasoningStep f c s).2 = [] := by
  unfold endReasoningStep
  split <;> simp [assistantEventsOf]

lemma noAssist_endMainReply (ext : Externals) (cfg : Config) (d : EndInfo)
    (s : SessState) : assistantEventsOf (endMainReply ext cfg d s).2 = [] := by
  unfold endMainReply
  repeat' split
  all_goals first
    | exact noAssist_parsedReplyOut _
    | simp [assistantEventsOf]

lemma noAssist_endTailFlush (ext : Externals) (cfg : Config) (s : SessState) :
    assistantEventsOf (endTailFlush ext cfg s).2 = [] := by
  unfold endTailFlush
  split
  · exact noAssist_parsedReplyOut _
  · simp [assistantEventsOf]

lemma assistantEventsOf_head_only (l0 l1 l2 l3 l4 l5 : List Output)
    (h1 : assistantEventsOf l1 = []) (h2 : assistantEventsOf l2 = [])
    (h3 : assistantEventsOf l3 = []) (h4 : assistantEventsOf l4 = [])
    (h5 : assistantEventsOf l5 = []) :
    assistantEventsOf (l0 ++ l1 ++ l2 ++ l3 ++ l4 ++ l5) = assistantEventsOf l0 := by
  simp [assistantEventsOf_append, h1, h2, h3, h4, h5]

/-- C6 — At-least-one-update guarantee: at an assistant `message_end`, when
`emittedUpdate` is false and the final cleaned text is non-empty or media
exist, exactly one assistant-stream event is produced, carrying the cleaned
text as both `text` and `delta`; when `emittedUpdate` is already true, no
assistant-stream event is produced at all. -/
theorem handleMessageEnd_fallback (ext : Externals) (cfg : Config) (s : SessState)
    (msg : EndMessage) :
    (msg.role = Role.assistant → s.emittedAssistantUpdate = false →
      ((endDerived ext cfg msg).cleanedText ≠ ([] : Str) ∨
        (endDerived ext cfg msg).mediaUrls ≠ ([] : List Str)) →
      assistantEventsOf (handleMessageEnd ext cfg s msg).2 =
        [((endDerived ext cfg msg).cleanedText, (endDerived ext cfg msg).cleanedText,
          if (endDerived ext cfg msg).mediaUrls ≠ ([] : List Str) then
            (endDerived ext cfg msg).mediaUrls else [])])
    ∧ (s.emittedAssistantUpdate = true →
        assistantEventsOf (handleMessageEnd ext cfg s msg).2 = []) := by
  constructor
  · intro hrole hemit hne
    have hr : ¬(msg.role ≠ Role.assistant) := by simp [hrole]
    simp only [handleMessageEnd, if_neg hr,
      endFallback_fires (endDerived ext cfg msg) s hemit hne]
    rw [assistantEventsOf_head_only]
    · simp [assistantEventsOf]
    · exact noAssist_endReasoningStep _ _ _
    · exact noAssist_endMainReply _ _ _ _
    · exact noAssist_endReasoningStep _ _ _
    · exact noAssist_list_ite _ _ _ (by simp [assistantEventsOf]) rfl
    · exact noAssist_endTailFlush _ _ _
  · intro hemit
    by_cases hrole : msg.role = Role.assistant
    · have hr : ¬(msg.role ≠ Role.assistant) := by simp [hrole]
      simp only [handleMessageEnd, if_neg hr,
        endFallback_skips (endDerived ext cfg msg) s hemit]
      rw [assistantEventsOf_head_only]
      · rfl
      · exact noAssist_endReasoningStep _ _ _
      · exact noAssist_endMainReply _ _ _ _
      · exact noAssist_endReasoningStep _ _ _
      · exact noAssist_list_ite _ _ _ (by simp [assistantEventsOf]) rfl
      · exact noAssist_endTailFlush _ _ _
    · simp [handleMessageEnd, hrole, assistantEventsOf]

/-- The C6 witness message, final content `"Done"`. -/
def wMsgC6 : EndMessage := ⟨Role.assistant, [Block.text ("Done".toList)]⟩

/-- Witness for C6: a provider sending only `message_start`/`message_end`
with final content `"Done"` produces exactly one live update `"Done"`. -/
theorem handleMessageEnd_fallback_witness :
    initialState.emittedAssistantUpdate = false ∧
      (endDerived specExternals cfgMsgEnd wMsgC6).cleanedText ≠ ([] : Str) ∧
      assistantEventsOf (handleMessageEnd specExternals cfgMsgEnd initialState wMsgC6).2 =
        [((endDerived specExternals cfgMsgEnd wMsgC6).cleanedText,
          (endDerived specExternals cfgMsgEnd wMsgC6).cleanedText,
          if (endDerived specExternals cfgMsgEnd wMsgC6).mediaUrls ≠ ([] : List Str) then
            (endDerived specExternals cfgMsgEnd wMsgC6).mediaUrls else [])] :=
  ⟨rfl, by decide,
    (handleMessageEnd_fallback specExternals cfgMsgEnd initialState wMsgC6).1
      rfl rfl (Or.inl (by decide))⟩

lemma emitDecision_suppressed (ext : Externals) (s : SessState) (chunk : Str)
    (hprev : prevCleanedOf s ≠ [])
    (hnpre : (prevCleanedOf s).isPrefixOf (cleanedOf ext s) = false) :
    emitDecision ext s chunk = (false, ([] : Str)) := by
  have hB : prevCleanedOf s ≠ [] ∧
      ¬ (prevCleanedOf s).isPrefixOf (cleanedOf ext s) = true := ⟨hprev, by simp [hnpre]⟩
  unfold emitDecision
  split
  all_goals first
    | rfl
    | (next h => exact absurd hB h)

lemma emitDecision_of_ok (ext : Externals) (s : SessState) (chunk : Str)
    (hok : prevCleanedOf s = [] ∨
      (prevCleanedOf s).isPrefixOf (cleanedOf ext s) = true) :
    emitDecision ext s chunk =
      (decide (deltaTextOf ext s ≠ [] ∨ mediaUrlsOf ext s chunk ≠ ([] : List Str) ∨
        hasAudioOf ext s chunk = true), deltaTextOf ext s) := by
  have hnB : ¬(prevCleanedOf s ≠ [] ∧
      ¬ (prevCleanedOf s).isPrefixOf (cleanedOf ext s) = true) := by
    rcases hok with h | h
    · intro hB; exact hB.1 h
    · intro hB; exact hB.2 h
  unfold emitDecision
  split
  · next hA =>
    have hdelta : deltaTextOf ext s = [] := by
      simp [deltaTextOf, hA.1]
    have hmedia : mediaUrlsOf ext s chunk = [] := by
      by_contra hc
      exact hA.2.1 hc
    have haudio : hasAudioOf ext s chunk = false := by
      cases h : hasAudioOf ext s chunk
      · rfl
      · exact absurd h hA.2.2
    simp [hdelta, hmedia, haudio]
  all_goals first
    | rfl
    | (next h => exact absurd h hnB)

lemma emissionPhase_suppressed (ext : Externals) (cfg : Config) (s : SessState)
    (chunk : Str) (hprev : prevCleanedOf s ≠ [])
    (hnpre : (prevCleanedOf s).isPrefixOf (cleanedOf ext s) = false) :
    (emissionPhase ext cfg s chunk).2 = [] := by
  have hd := emitDecision_suppressed ext s chunk hprev hnpre
  simp only [emissionPhase, hd]
  split
  · rfl
  · simp

lemma emissionPhase_emitted (ext : Externals) (cfg : Config) (s : SessState)
    (chunk : Str)
    (hok : prevCleanedOf s = [] ∨
      (prevCleanedOf s).isPrefixOf (cleanedOf ext s) = true) :
    (assistantEventsOf (emissionPhase ext cfg s chunk).2 ≠ [] ↔
      (nextOf ext s ≠ [] ∧ (deltaTextOf ext s ≠ [] ∨
        mediaUrlsOf ext s chunk ≠ [] ∨ hasAudioOf ext s chunk = true)))
    ∧ ∀ ev ∈ assistantEventsOf (emissionPhase ext cfg s chunk).2,
        ev.2.1 = deltaTextOf ext s := by
  have hd := emitDecision_of_ok ext s chunk hok
  simp only [emissionPhase, hd]
  split
  · next hnext =>
    constructor
    · simp [assistantEventsOf, hnext]
    · intro ev hev
      simp [assistantEventsOf] at hev
  · next hnext =>
    by_cases hφ : (deltaTextOf ext s ≠ [] ∨ mediaUrlsOf ext s chunk ≠ [] ∨
        hasAudioOf ext s chunk = true)
    · rw [if_pos (by simpa using hφ)]
      constructor
      · constructor
        · intro _
          exact ⟨hnext, hφ⟩
        · intro _
          simp only [assistantEventsOf, List.filterMap_cons]
          split
          · simp
          · simp
      · intro ev hev
        by_cases hpr : cfg.hasOnProgressReply = true ∧ cfg.shouldEmitProgressReplies = true
        · rw [if_pos hpr] at hev
          simp [assistantEventsOf] at hev
          rw [hev]
        · rw [if_neg hpr] at hev
          simp [assistantEventsOf] at hev
          rw [hev]
    · rw [if_neg (by simpa using hφ)]
      constructor
      · constructor
        · intro h
          simp [assistantEventsOf] at h
        · intro h
          exact absurd h.2 hφ
      · intro ev hev
        simp [assistantEventsOf] at hev

lemma updateCore_assistantEvents (ext : Externals) (cfg : Config) (s : SessState)
    (sub : SubEvent) :
    assistantEventsOf (updateCore ext cfg s sub).2 =
      assistantEventsOf (emissionPhase ext cfg (bufferedState s sub) (chunkOf s sub)).2 := by
  simp only [updateCore]
  rw [assistantEventsOf_append, assistantEventsOf_append,
    textEndFlush_no_assistant]
  have hoR : assistantEventsOf
      (if cfg.streamReasoning = true then
        (let r := ext.extractThinkingStream (bufferedState s sub).deltaBuffer;
          if r ≠ [] then [Output.reasoningStream r] else [])
      else []) = [] := by
    split
    · dsimp only
      split <;> simp [assistantEventsOf]
    · simp [assistantEventsOf]
  rw [hoR]
  simp

/-- C5 — Regression suppression and emission condition: writing `buffered` for
the state after the chunk append, when the stripped trimmed buffer (`next`) is
non-empty and the previously streamed cleaned text is non-empty but is not a
prefix of the new cleaned text, no live assistant update is emitted; and when
no such regression holds, a live update is emitted exactly when the new delta
(the cleaned text with the previous cleaned prefix removed) is non-empty or
the partial directive result carried media or the voice-audio flag, every
emitted update carrying exactly that delta. -/
theorem emission_regression_guard (ext : Externals) (cfg : Config) (s : SessState)
    (sub : SubEvent) (ht : sub.type ≠ EvtType.other)
    (hNS : ¬(0 ≤ sub.contentIndex ∧ 0 ≤ s.currentTextContentIndex ∧
      sub.contentIndex < s.currentTextContentIndex))
    (hNB : ¬(0 ≤ sub.contentIndex ∧ sub.contentIndex ≠ s.currentTextContentIndex ∧
      0 ≤ s.currentTextContentIndex)) :
    (nextOf ext (bufferedState s sub) ≠ [] →
      prevCleanedOf (bufferedState s sub) ≠ [] →
      (prevCleanedOf (bufferedState s sub)).isPrefixOf
        (cleanedOf ext (bufferedState s sub)) = false →
      assistantEventsOf (handleMessageUpdate ext cfg s Role.assistant sub).2 = [])
    ∧ ((prevCleanedOf (bufferedState s sub) = [] ∨
        (prevCleanedOf (bufferedState s sub)).isPrefixOf
          (cleanedOf ext (bufferedState s sub)) = true) →
      ((assistantEventsOf (handleMessageUpdate ext cfg s Role.assistant sub).2 ≠ [] ↔
        (nextOf ext (bufferedState s sub) ≠ [] ∧
          (deltaTextOf ext (bufferedState s sub) ≠ [] ∨
            mediaUrlsOf ext (bufferedState s sub) (chunkOf s sub) ≠ [] ∨
            hasAudioOf ext (bufferedState s sub) (chunkOf s sub) = true)))
      ∧ ∀ ev ∈ assistantEventsOf (handleMessageUpdate ext cfg s Role.assistant sub).2,
          ev.2.1 = deltaTextOf ext (bufferedState s sub))) := by
  rw [handleMessageUpdate_plain ext cfg s sub ht hNS hNB,
    updateCore_assistantEvents ext cfg s sub]
  constructor
  · intro _ hprev hnpre
    rw [emissionPhase_suppressed ext cfg (bufferedState s sub) (chunkOf s sub) hprev hnpre]
    simp [assistantEventsOf]
  · intro hok
    exact emissionPhase_emitted ext cfg (bufferedState s sub) (chunkOf s sub) hok

/-- The C5 witness state: block text `"Partial"` already streamed and cleaned. -/
def wStateC5 : SessState :=
  { initialState with
      deltaBuffer := txtPartial,
      cumulativeStreamedText := txtPartial,
      lastStreamedAssistantCleaned := some txtPartial,
      emittedAssistantUpdate := true }

/-- The C5 witness event: a `text_end` resending `"Partial text done"`. -/
def wSubC5 : SubEvent := ⟨EvtType.text_end, [], txtPartialTextDone, -1⟩

/-- Witness for C5: with previous cleaned text `"Partial"` extended by cleaned
text `"Partial text done"`, an update is emitted and its delta is `" text done"`. -/
theorem emission_regression_guard_witness :
    (prevCleanedOf (bufferedState wStateC5 wSubC5)).isPrefixOf
        (cleanedOf specExternals (bufferedState wStateC5 wSubC5)) = true ∧
      ((assistantEventsOf
          (handleMessageUpdate specExternals cfgMsgEnd wStateC5 Role.assistant wSubC5).2 ≠ [] ↔
        (nextOf specExternals (bufferedState wStateC5 wSubC5) ≠ [] ∧
          (deltaTextOf specExternals (bufferedState wStateC5 wSubC5) ≠ [] ∨
            mediaUrlsOf specExternals (bufferedState wStateC5 wSubC5) (chunkOf wStateC5 wSubC5) ≠ [] ∨
            hasAudioOf specExternals (bufferedState wStateC5 wSubC5) (chunkOf wStateC5 wSubC5) = true)))
      ∧ ∀ ev ∈ assistantEventsOf
          (handleMessageUpdate specExternals cfgMsgEnd wStateC5 Role.assistant wSubC5).2,
          ev.2.1 = deltaTextOf specExternals (bufferedState wStateC5 wSubC5)) :=
  ⟨by decide,
    (emission_regression_guard specExternals cfgMsgEnd wStateC5 wSubC5
      (by decide) (by decide) (by decide)).2 (Or.inr (by decide))⟩

lemma assistantTextsOf_append (l1 l2 : List Output) :
    assistantTextsOf (l1 ++ l2) = assistantTextsOf l1 ++ assistantTextsOf l2 := by
  simp [assistantTextsOf, assistantEventsOf_append]

lemma chain'_head_weaken {a b : Str} {l : List Str} (hab : a <+: b)
    (h : List.Chain' (· <+: ·) (b :: l)) : List.Chain' (· <+: ·) (a :: l) := by
  cases l with
  | nil => exact List.chain'_singleton _
  | cons c l2 =>
    rw [List.chain'_cons] at h ⊢
    exact ⟨hab.trans h.1, h.2⟩

lemma emissionPhase_cum (ext : Externals) (cfg : Config) (s : SessState) (chunk : Str) :
    (((emissionPhase ext cfg s chunk).1).cumulativeStreamedText = s.cumulativeStreamedText
      ∧ assistantEventsOf (emissionPhase ext cfg s chunk).2 = [])
    ∨ (∃ d m, ((emissionPhase ext cfg s chunk).1).cumulativeStreamedText =
          s.cumulativeStreamedText ++ d
        ∧ assistantEventsOf (emissionPhase ext cfg s chunk).2 =
            [(s.cumulativeStreamedText ++ d, d, m)]) := by
  simp only [emissionPhase]
  split
  · exact Or.inl ⟨rfl, rfl⟩
  · split
    · refine Or.inr ⟨(emitDecision ext s chunk).2,
        (if mediaUrlsOf ext s chunk ≠ ([] : List Str) then mediaUrlsOf ext s chunk else []),
        rfl, ?_⟩
      simp only [assistantEventsOf, List.filterMap_cons]
      split
      · split <;> rfl
      · split <;> rfl
    · exact Or.inl ⟨rfl, rfl⟩

lemma boundaryTransition_cum (ext : Externals) (s : SessState) :
    s.cumulativeStreamedText <+: ((boundaryTransition ext s).1).cumulativeStreamedText := by
  simp only [boundaryTransition]
  split
  · split
    · rw [(emitBlockChunkModel_frame ext s s.blockBuffer).2.1]
      exact List.prefix_append _ _
    · rw [(emitBlockChunkModel_frame ext s s.blockBuffer).2.1]
  · split
    · exact List.prefix_append _ _
    · exact List.prefix_rfl

lemma updateCore_cum_step (ext : Externals) (cfg : Config) (s : SessState)
    (sub : SubEvent) :
    s.cumulativeStreamedText <+: ((updateCore ext cfg s sub).1).cumulativeStreamedText
    ∧ (assistantTextsOf (updateCore ext cfg s sub).2 = [] ∨
        ∃ t, assistantTextsOf (updateCore ext cfg s sub).2 = [t]
          ∧ t = ((updateCore ext cfg s sub).1).cumulativeStreamedText
          ∧ s.cumulativeStreamedText <+: t) := by
  have hb : (bufferedState s sub).cumulativeStreamedText = s.cumulativeStreamedText := by
    unfold bufferedState indexTracked
    split <;> split <;> rfl
  have hf := (textEndFlush_frame ext cfg
    (emissionPhase ext cfg (bufferedState s sub) (chunkOf s sub)).1 sub.type).2.1
  have hA := updateCore_assistantEvents ext cfg s sub
  have hcum : ((updateCore ext cfg s sub).1).cumulativeStreamedText =
      ((emissionPhase ext cfg (bufferedState s sub) (chunkOf s sub)).1).cumulativeStreamedText := by
    simp only [updateCore]
    exact hf
  rcases emissionPhase_cum ext cfg (bufferedState s sub) (chunkOf s sub) with
    ⟨hc, he⟩ | ⟨d, m, hc, he⟩
  · constructor
    · rw [hcum, hc, hb]
    · left
      simp [assistantTextsOf, hA, he]
  · constructor
    · rw [hcum, hc, hb]
      exact List.prefix_append _ _
    · right
      refine ⟨s.cumulativeStreamedText ++ d, ?_, ?_, List.prefix_append _ _⟩
      · simp [assistantTextsOf, hA, he, hb]
      · rw [hcum, hc, hb]

lemma handleMessageUpdate_cum_step (ext : Externals) (cfg : Config) (s : SessState)
    (role : Role) (sub : SubEvent) :
    s.cumulativeStreamedText <+:
      ((handleMessageUpdate ext cfg s role sub).1).cumulativeStreamedText
    ∧ (assistantTextsOf (handleMessageUpdate ext cfg s role sub).2 = [] ∨
        ∃ t, assistantTextsOf (handleMessageUpdate ext cfg s role sub).2 = [t]
          ∧ t = ((handleMessageUpdate ext cfg s role sub).1).cumulativeStreamedText
          ∧ s.cumulativeStreamedText <+: t) := by
  simp only [handleMessageUpdate]
  split
  · exact ⟨List.prefix_rfl, Or.inl rfl⟩
  · split
    · exact ⟨List.prefix_rfl, Or.inl rfl⟩
    · split
      · exact ⟨List.prefix_rfl, Or.inl rfl⟩
      · split
        · -- boundary: flush outputs carry no assistant events
          have hb := boundaryTransition_cum ext s
          have hbe := boundaryTransition_no_assistant ext s
          obtain ⟨h1, h2⟩ := updateCore_cum_step ext cfg (boundaryTransition ext s).1 sub
          constructor
          · exact hb.trans h1
          · rw [assistantTextsOf_append]
            have hbt : assistantTextsOf (boundaryTransition ext s).2 = [] := by
              simp [assistantTextsOf, hbe]
            rw [hbt, List.nil_append]
            rcases h2 with h0 | ⟨t, ht, htc, htp⟩
            · exact Or.inl h0
            · exact Or.inr ⟨t, ht, htc, hb.trans htp⟩
        · exact updateCore_cum_step ext cfg s sub

lemma runUpdates_chain (ext : Externals) (cfg : Config) :
    ∀ (events : List SubEvent) (s : SessState),
      List.Chain' (· <+: ·)
        (s.cumulativeStreamedText :: assistantTextsOf (runUpdates ext cfg s events).2)
      ∧ s.cumulativeStreamedText <+:
          ((runUpdates ext cfg s events).1).cumulativeStreamedText := by
  intro events
  induction events with
  | nil => exact fun s => ⟨List.chain'_singleton _, List.prefix_rfl⟩
  | cons e rest ih =>
    intro s
    obtain ⟨hpre, hstep⟩ := handleMessageUpdate_cum_step ext cfg s Role.assistant e
    obtain ⟨hchain, hpre2⟩ :=
      ih (handleMessageUpdate ext cfg s Role.assistant e).1
    simp only [runUpdates]
    rw [assistantTextsOf_append]
    rcases hstep with h0 | ⟨t, ht, htc, htp⟩
    · rw [h0, List.nil_append]
      exact ⟨chain'_head_weaken hpre hchain, hpre.trans hpre2⟩
    · rw [ht, List.singleton_append]
      refine ⟨?_, hpre.trans hpre2⟩
      subst htc
      rw [List.chain'_cons]
      exact ⟨htp, hchain⟩

set_option maxHeartbeats 2000000 in
lemma handleMessageEnd_cum (ext : Externals) (cfg : Config) (s : SessState)
    (msg : EndMessage) :
    ((handleMessageEnd ext cfg s msg).1).cumulativeStreamedText =
      s.cumulativeStreamedText := by
  have hRS : ∀ (f : Str) (c : Prop) (i : Decidable c) (t : SessState),
      ((endReasoningStep f c t).1).cumulativeStreamedText = t.cumulativeStreamedText := by
    intro f c i t
    unfold endReasoningStep
    split <;> rfl
  have hMain : ∀ t, ((endMainReply ext cfg (endDerived ext cfg msg) t).1).cumulativeStreamedText =
      t.cumulativeStreamedText := by
    intro t
    unfold endMainReply
    repeat' split
    all_goals rfl
  have hTail : ∀ t, ((endTailFlush ext cfg t).1).cumulativeStreamedText =
      t.cumulativeStreamedText := by
    intro t
    unfold endTailFlush
    split <;> rfl
  have hFin : ∀ t a b, ((finalizeAssistantTextsModel t a b)).cumulativeStreamedText =
      t.cumulativeStreamedText := by
    intro t a b
    unfold finalizeAssistantTextsModel
    split <;> rfl
  have hFb : ∀ t, ((endFallback (endDerived ext cfg msg) t).1).cumulativeStreamedText =
      t.cumulativeStreamedText := by
    intro t
    unfold endFallback
    split <;> rfl
  simp only [handleMessageEnd]
  split
  · rfl
  · have hres : ∀ t : SessState, (endResets t).cumulativeStreamedText =
        t.cumulativeStreamedText := fun _ => rfl
    show (endResets _).cumulativeStreamedText = _
    rw [hres, hTail, hRS, hMain, hRS, hFin, hFb]

def txtA : Str := "A".toList

def txtBlockB : Str := " B[[u".toList

def txtSp : Str := " ".toList

def txtANlB : Str := "A\nB".toList

def txtANlSpB : Str := "A\n B".toList

/-- The C2 counterexample stream: block 0 streams `"A"`, block 1 streams
`" B[[u"` (a trailing unterminated directive opener), block 2 streams only
whitespace, and `message_end` delivers the matching final content. -/
def c2events : List Event :=
  [Event.msgStart Role.assistant,
   Event.msgUpdate Role.assistant ⟨EvtType.text_delta, txtA, [], 0⟩,
   Event.msgUpdate Role.assistant ⟨EvtType.text_delta, txtBlockB, [], 1⟩,
   Event.msgUpdate Role.assistant ⟨EvtType.text_delta, txtSp, [], 2⟩,
   Event.msgEnd ⟨Role.assistant, [Block.text txtA, Block.text txtBlockB, Block.text txtSp]⟩]

/-- Counterexample to C2 as stated: on this self-consistent stream the live
assistant updates are `"A"`, `"A\nB"`, `"A\n B"` — the `message_end` fallback
fires (the last block emitted no live update, so `emittedUpdate` was reset at
its boundary) and its final cleaned text `"A\n B"` does not extend `"A\nB"`,
because the per-block trim dropped a space that the end-of-message join keeps. -/
theorem monotonicity_counterexample :
    assistantTextsOf (runEvents specExternals cfgMsgEnd initialState c2events).2 =
      [txtA, txtANlB, txtANlSpB] ∧
    ¬ List.Chain' (· <+: ·)
        (assistantTextsOf (runEvents specExternals cfgMsgEnd initialState c2events).2) := by
  constructor
  · decide
  · intro h
    rw [show assistantTextsOf (runEvents specExternals cfgMsgEnd initialState c2events).2 =
      [txtA, txtANlB, txtANlSpB] from by decide] at h
    rw [List.chain'_cons, List.chain'_cons] at h
    obtain ⟨-, h2, -⟩ := h
    have hb : txtANlB.isPrefixOf txtANlSpB = true := List.isPrefixOf_iff_prefix.mpr h2
    exact absurd hb (by decide)

/-- C2 amended — Monotonicity of the streamed feed: the cumulative streamed
text never shrinks across update handling and is untouched by `message_end`,
and the live assistant updates emitted by the update handler form a chain
under the is-prefix-of relation (each successive `data.text` extends the
previous, starting from the current cumulative text).  The `message_end`
fallback emission (which fires whenever the final block emitted no live
update) carries the final cleaned text instead and is exempt. -/
theorem monotonicity_streamed (ext : Externals) (cfg : Config) (s : SessState) :
    (∀ events : List SubEvent,
      List.Chain' (· <+: ·)
        (s.cumulativeStreamedText :: assistantTextsOf (runUpdates ext cfg s events).2)
      ∧ s.cumulativeStreamedText <+:
          ((runUpdates ext cfg s events).1).cumulativeStreamedText)
    ∧ ∀ msg : EndMessage,
        ((handleMessageEnd ext cfg s msg).1).cumulativeStreamedText =
          s.cumulativeStreamedText :=
  ⟨fun events => runUpdates_chain ext cfg events s,
   fun msg => handleMessageEnd_cum ext cfg s msg⟩

/-- Override only the tracked content-block index of a session state. -/
def setIdx (s : SessState) (i : Int) : SessState :=
  { s with currentTextContentIndex := i }

lemma setIdx_self (s : SessState) (h : s.currentTextContentIndex = -1) :
    setIdx s (-1) = s := by
  cases s
  simp only [setIdx]
  simp_all

lemma emissionPhase_setIdx (ext : Externals) (cfg : Config) (s : SessState)
    (i : Int) (ch : Str) :
    emissionPhase ext cfg (setIdx s i) ch =
      (setIdx (emissionPhase ext cfg s ch).1 i, (emissionPhase ext cfg s ch).2) := by
  simp only [emissionPhase, nextOf, cleanedOf, prevCleanedOf, deltaTextOf, mediaUrlsOf,
    hasAudioOf, parsedDeltaOf, visibleDeltaOf, emitDecision, setIdx]
  repeat' split
  all_goals rfl

lemma textEndFlush_setIdx (ext : Externals) (cfg : Config) (s : SessState)
    (i : Int) (t : EvtType) :
    textEndFlush ext cfg (setIdx s i) t =
      (setIdx (textEndFlush ext cfg s t).1 i, (textEndFlush ext cfg s t).2) := by
  simp only [textEndFlush, emitBlockChunkModel, setIdx]
  repeat' split
  all_goals rfl

lemma updateCore_indexless (ext : Externals) (cfg : Config) (v : SessState)
    (e : SubEvent) (he : e.contentIndex = -1) :
    updateCore ext cfg (setIdx v (-1)) e =
      (setIdx (updateCore ext cfg v { e with contentIndex := 0 }).1 (-1),
        (updateCore ext cfg v { e with contentIndex := 0 }).2) := by
  have h0 : ({ e with contentIndex := 0 } : SubEvent).contentIndex = 0 := rfl
  have hIT1 : indexTracked (setIdx v (-1)) e = setIdx v (-1) := by
    unfold indexTracked
    rw [if_neg (by rw [he]; omega)]
  have hIT2 : indexTracked v { e with contentIndex := 0 } = setIdx v 0 := by
    unfold indexTracked
    rw [if_pos (by rw [h0])]
    rfl
  have hch : chunkOf (setIdx v (-1)) e = chunkOf v { e with contentIndex := 0 } := by
    unfold chunkOf
    rw [hIT1, hIT2]
    rfl
  have hBS : bufferedState (setIdx v (-1)) e =
      setIdx (bufferedState v { e with contentIndex := 0 }) (-1) := by
    unfold bufferedState
    rw [hIT1, hIT2, hch]
    split <;> rfl
  simp only [updateCore, hBS, hch, emissionPhase_setIdx, textEndFlush_setIdx]
  rfl

lemma updateCore_current (ext : Externals) (cfg : Config) (s : SessState)
    (sub : SubEvent) :
    ((updateCore ext cfg s sub).1).currentTextContentIndex =
      ((indexTracked s sub)).currentTextContentIndex := by
  have hb : (bufferedState s sub).currentTextContentIndex =
      (indexTracked s sub).currentTextContentIndex := by
    unfold bufferedState
    split <;> rfl
  simp only [updateCore]
  rw [(textEndFlush_frame _ _ _ _).2.2.2.1, (emissionPhase_frame _ _ _ _).2.2.2.1, hb]

lemma handleMessageUpdate_indexless (ext : Externals) (cfg : Config) (v : SessState)
    (hv : v.currentTextContentIndex = -1 ∨ v.currentTextContentIndex = 0)
    (e : SubEvent) (he : e.contentIndex = -1) :
    handleMessageUpdate ext cfg (setIdx v (-1)) Role.assistant e =
      (setIdx (handleMessageUpdate ext cfg v Role.assistant
          { e with contentIndex := 0 }).1 (-1),
        (handleMessageUpdate ext cfg v Role.assistant { e with contentIndex := 0 }).2)
    ∧ (((handleMessageUpdate ext cfg v Role.assistant
          { e with contentIndex := 0 }).1).currentTextContentIndex = -1 ∨
        ((handleMessageUpdate ext cfg v Role.assistant
          { e with contentIndex := 0 }).1).currentTextContentIndex = 0) := by
  by_cases htype : e.type = EvtType.other
  · have h1 : handleMessageUpdate ext cfg (setIdx v (-1)) Role.assistant e =
        (setIdx v (-1), []) := by
      simp [handleMessageUpdate, htype]
    have h2 : handleMessageUpdate ext cfg v Role.assistant
        { e with contentIndex := 0 } = (v, []) := by
      simp [handleMessageUpdate, htype]
    rw [h1, h2]
    exact ⟨rfl, hv⟩
  · have hNS1 : ¬(0 ≤ e.contentIndex ∧
        0 ≤ (setIdx v (-1)).currentTextContentIndex ∧
        e.contentIndex < (setIdx v (-1)).currentTextContentIndex) := by
      rw [he]; omega
    have hNB1 : ¬(0 ≤ e.contentIndex ∧
        e.contentIndex ≠ (setIdx v (-1)).currentTextContentIndex ∧
        0 ≤ (setIdx v (-1)).currentTextContentIndex) := by
      rw [he]; omega
    have hcur : (setIdx v 0).currentTextContentIndex = 0 := rfl
    have hNS2 : ¬(0 ≤ ({ e with contentIndex := 0 } : SubEvent).contentIndex ∧
        0 ≤ v.currentTextContentIndex ∧
        ({ e with contentIndex := 0 } : SubEvent).contentIndex <
          v.currentTextContentIndex) := by
      show ¬(0 ≤ (0 : Int) ∧ _ ∧ (0 : Int) < v.currentTextContentIndex)
      rcases hv with h | h <;> rw [h] <;> omega
    have hNB2 : ¬(0 ≤ ({ e with contentIndex := 0 } : SubEvent).contentIndex ∧
        ({ e with contentIndex := 0 } : SubEvent).contentIndex ≠
          v.currentTextContentIndex ∧
        0 ≤ v.currentTextContentIndex) := by
      show ¬(0 ≤ (0 : Int) ∧ (0 : Int) ≠ v.currentTextContentIndex ∧
        0 ≤ v.currentTextContentIndex)
      rcases hv with h | h <;> rw [h] <;> simp
    rw [handleMessageUpdate_plain ext cfg (setIdx v (-1)) e htype hNS1 hNB1,
      handleMessageUpdate_plain ext cfg v { e with contentIndex := 0 }
        (by simpa using htype) hNS2 hNB2]
    refine ⟨updateCore_indexless ext cfg v e he, ?_⟩
    rw [updateCore_current]
    right
    rw [show indexTracked v { e with contentIndex := 0 } = setIdx v 0 from by
      unfold indexTracked
      rw [if_pos (by
        rw [show ({ e with contentIndex := 0 } : SubEvent).contentIndex = 0 from rfl])]
      rfl]
    exact hcur

lemma runUpdates_indexless (ext : Externals) (cfg : Config) :
    ∀ (events : List SubEvent) (v : SessState),
      (v.currentTextContentIndex = -1 ∨ v.currentTextContentIndex = 0) →
      (∀ e ∈ events, e.contentIndex = -1) →
      runUpdates ext cfg (setIdx v (-1)) events =
        (setIdx (runUpdates ext cfg v
            (events.map fun e => { e with contentIndex := 0 })).1 (-1),
          (runUpdates ext cfg v
            (events.map fun e => { e with contentIndex := 0 })).2) := by
  intro events
  induction events with
  | nil => intro v _ _; rfl
  | cons e rest ih =>
    intro v hv hall
    obtain ⟨hstep, hidx⟩ := handleMessageUpdate_indexless ext cfg v hv e
      (hall e (by simp))
    simp only [List.map_cons, runUpdates]
    rw [hstep]
    have := ih (handleMessageUpdate ext cfg v Role.assistant
      { e with contentIndex := 0 }).1 hidx (fun x hx => hall x (by simp [hx]))
    rw [show (setIdx (handleMessageUpdate ext cfg v Role.assistant
        { e with contentIndex := 0 }).1 (-1),
        (handleMessageUpdate ext cfg v Role.assistant
          { e with contentIndex := 0 }).2).1 =
      setIdx (handleMessageUpdate ext cfg v Role.assistant
        { e with contentIndex := 0 }).1 (-1) from rfl]
    rw [this]

def txtX : Str := "x".toList

/-- The C7 witness event: an indexless delta `"x"`. -/
def wSubC7 : SubEvent := ⟨EvtType.text_delta, txtX, [], -1⟩

/-- The same event with `contentIndex` 0 attached. -/
def wSubC7idx : SubEvent := ⟨EvtType.text_delta, txtX, [], 0⟩

/-- Counterexample to C7 as stated: for the single indexless delta `"x"`, the
indexless run and the index-0 run produce the same emissions but *not* the
same state — the indexless run leaves `currentTextContentIndex` at `-1` while
the indexed run sets it to `0`. -/
theorem indexless_equivalence_counterexample :
    (runUpdates specExternals cfgMsgEnd initialState [wSubC7]).2 =
      (runUpdates specExternals cfgMsgEnd initialState [wSubC7idx]).2
    ∧ (runUpdates specExternals cfgMsgEnd initialState [wSubC7]).1 ≠
      (runUpdates specExternals cfgMsgEnd initialState [wSubC7idx]).1 := by
  constructor
  · decide
  · decide

/-- C7 amended — Indexless compatibility: a stream in which no sub-event
carries a `contentIndex` (all coerced to `-1`) run from a state whose tracked
index is unset produces exactly the same emissions, and the same state except
for the tracked `currentTextContentIndex` field (which stays `-1` instead of
becoming `0`), as the same stream with index `0` attached to every event. -/
theorem indexless_equivalence (ext : Externals) (cfg : Config) (s : SessState)
    (events : List SubEvent) (hs : s.currentTextContentIndex = -1)
    (hall : ∀ e ∈ events, e.contentIndex = -1) :
    (runUpdates ext cfg s events).2 =
      (runUpdates ext cfg s (events.map fun e => { e with contentIndex := 0 })).2
    ∧ setIdx (runUpdates ext cfg s events).1 0 =
      setIdx (runUpdates ext cfg s
        (events.map fun e => { e with contentIndex := 0 })).1 0
    ∧ ((runUpdates ext cfg s events).1).currentTextContentIndex = -1 := by
  have h := runUpdates_indexless ext cfg events s (Or.inl hs) hall
  rw [setIdx_self s hs] at h
  refine ⟨?_, ?_, ?_⟩
  · rw [h]
  · rw [h]
    rfl
  · rw [h]
    rfl

/-- Witness for C7 at the single indexless delta `"x"`. -/
theorem indexless_equivalence_witness :
    initialState.currentTextContentIndex = -1 ∧
      ((runUpdates specExternals cfgMsgEnd initialState [wSubC7]).2 =
        (runUpdates specExternals cfgMsgEnd initialState
          ([wSubC7].map fun e => { e with contentIndex := 0 })).2
      ∧ setIdx (runUpdates specExternals cfgMsgEnd initialState [wSubC7]).1 0 =
        setIdx (runUpdates specExternals cfgMsgEnd initialState
          ([wSubC7].map fun e => { e with contentIndex := 0 })).1 0
      ∧ ((runUpdates specExternals cfgMsgEnd initialState
          [wSubC7]).1).currentTextContentIndex = -1) :=
  ⟨rfl, indexless_equivalence specExternals cfgMsgEnd initialState [wSubC7] rfl
    (by decide)⟩

lemma boundaryTransition_resets (ext : Externals) (s : SessState) (db : Str)
    (lscO : Option Str) (eu : Bool) (pbs : TagState) :
    boundaryTransition ext
      { s with
          deltaBuffer := db, lastStreamedAssistantCleaned := lscO,
          emittedAssistantUpdate := eu, perBlockTagState := pbs } =
      boundaryTransition ext s := by
  simp only [boundaryTransition, emitBlockChunkModel]
  repeat' split
  all_goals first
    | rfl
    | simp_all

lemma boundaryTransition_out (ext : Externals) (s : SessState) :
    (boundaryTransition ext s).2 = (emitBlockChunkModel ext s s.blockBuffer).2 := by
  simp only [boundaryTransition]
  split
  · rfl
  · next h =>
    have hb : s.blockBuffer = [] := by
      by_contra hc
      exact h hc
    rw [hb]
    simp [emitBlockChunkModel]

lemma boundaryTransition_msgTag (ext : Externals) (s : SessState) :
    ((boundaryTransition ext s).1).msgTagState = s.msgTagState := by
  simp only [boundaryTransition]
  split
  · split
    · exact (emitBlockChunkModel_frame ext s s.blockBuffer).2.2.1
    · exact (emitBlockChunkModel_frame ext s s.blockBuffer).2.2.1
  · split
    · rfl
    · rfl

lemma boundaryTransition_cum_eq (ext : Externals) (s : SessState)
    (h : s.cumulativeStreamedText ≠ []) :
    ((boundaryTransition ext s).1).cumulativeStreamedText =
      s.cumulativeStreamedText ++ ['\n'] := by
  have hf := (emitBlockChunkModel_frame ext s s.blockBuffer).2.1
  simp only [boundaryTransition]
  repeat' split
  all_goals simp_all

lemma updateCore_msgTag (ext : Externals) (cfg : Config) (s : SessState)
    (sub : SubEvent) :
    ((updateCore ext cfg s sub).1).msgTagState = s.msgTagState := by
  have hb : (bufferedState s sub).msgTagState = s.msgTagState := by
    unfold bufferedState indexTracked
    split <;> split <;> rfl
  simp only [updateCore]
  rw [(textEndFlush_frame _ _ _ _).2.2.1, (emissionPhase_frame _ _ _ _).2.2.1, hb]

def txtB : Str := "B".toList

/-- The C4 scenario: block `"A"` at index 0 then block `"B"` at index 1. -/
def c4events : List Event :=
  [Event.msgStart Role.assistant,
   Event.msgUpdate Role.assistant ⟨EvtType.text_delta, txtA, [], 0⟩,
   Event.msgUpdate Role.assistant ⟨EvtType.text_delta, txtB, [], 1⟩]

/-- C4 amended — Block boundary detection and separator: for a text sub-event
whose non-negative `contentIndex` is *strictly greater* than the already-set
current block index (an event merely differing but smaller is discarded by the
staleness guard instead), the handler leaves the message-wide tag state alone,
behaves identically whatever the previous per-block accumulators
(`deltaBuffer`, `lastStreamedAssistantCleaned`, `emittedUpdate`, per-block tag
state) held — they are reset at the boundary — flushes the pending block text
through the block-chunk emitter before any other output, appends exactly one
newline separator to a non-empty cumulative text before new text accrues, and
joins blocks `"A"` then `"B"` on a new index as `"A\nB"`. -/
theorem boundary_transition_effects (ext : Externals) (cfg : Config)
    (s : SessState) (sub : SubEvent) (ht : sub.type ≠ EvtType.other)
    (h0 : 0 ≤ sub.contentIndex) (hcur : 0 ≤ s.currentTextContentIndex)
    (hgt : s.currentTextContentIndex < sub.contentIndex) :
    ((handleMessageUpdate ext cfg s Role.assistant sub).1).msgTagState = s.msgTagState
    ∧ (∀ (db : Str) (lscO : Option Str) (eu : Bool) (pbs : TagState),
        handleMessageUpdate ext cfg
          { s with
              deltaBuffer := db, lastStreamedAssistantCleaned := lscO,
              emittedAssistantUpdate := eu, perBlockTagState := pbs }
          Role.assistant sub = handleMessageUpdate ext cfg s Role.assistant sub)
    ∧ (∃ rest, (handleMessageUpdate ext cfg s Role.assistant sub).2 =
        (emitBlockChunkModel ext s s.blockBuffer).2 ++ rest)
    ∧ (s.cumulativeStreamedText ≠ [] →
        ∃ d, ((handleMessageUpdate ext cfg s Role.assistant sub).1).cumulativeStreamedText =
          s.cumulativeStreamedText ++ '\n' :: d)
    ∧ ((runEvents specExternals cfgMsgEnd initialState c4events).1).cumulativeStreamedText =
        txtANlB := by
  have hb := handleMessageUpdate_boundary ext cfg s sub ht h0 hcur hgt
  refine ⟨?_, ?_, ?_, ?_, by decide⟩
  · rw [hb]
    show ((updateCore ext cfg (boundaryTransition ext s).1 sub).1).msgTagState = _
    rw [updateCore_msgTag, boundaryTransition_msgTag]
  · intro db lscO eu pbs
    have hb2 := handleMessageUpdate_boundary ext cfg
      { s with
          deltaBuffer := db, lastStreamedAssistantCleaned := lscO,
          emittedAssistantUpdate := eu, perBlockTagState := pbs } sub ht h0 hcur hgt
    rw [hb, hb2, boundaryTransition_resets]
  · rw [hb]
    exact ⟨(updateCore ext cfg (boundaryTransition ext s).1 sub).2,
      by rw [boundaryTransition_out]⟩
  · intro hne
    rw [hb]
    obtain ⟨hpre, -⟩ := updateCore_cum_step ext cfg (boundaryTransition ext s).1 sub
    obtain ⟨d, hd⟩ := hpre
    refine ⟨d, ?_⟩
    show ((updateCore ext cfg (boundaryTransition ext s).1 sub).1).cumulativeStreamedText = _
    rw [← hd, boundaryTransition_cum_eq ext s hne]
    simp

/-- The C4 counterexample state: current block 1, cumulative text `"A"`,
pending block text `"x"`. -/
def wStateC4bad : SessState :=
  { initialState with
      currentTextContentIndex := 1,
      cumulativeStreamedText := txtA, blockBuffer := txtX }

/-- The C4 counterexample event: index 0 — non-negative, different from the
current index 1, with the current index set. -/
def wSubC4bad : SubEvent := ⟨EvtType.text_delta, txtB, [], 0⟩

/-- Counterexample to C4 as stated: an event whose index merely *differs*
(here 0 < 1) satisfies the claim's hypotheses, but the staleness guard
discards it first: nothing is flushed or reset and no separator is appended. -/
theorem boundary_transition_counterexample :
    (0 ≤ wSubC4bad.contentIndex ∧
      wSubC4bad.contentIndex ≠ wStateC4bad.currentTextContentIndex ∧
      0 ≤ wStateC4bad.currentTextContentIndex) ∧
    handleMessageUpdate specExternals cfgMsgEnd wStateC4bad Role.assistant wSubC4bad =
      (wStateC4bad, []) ∧
    wStateC4bad.cumulativeStreamedText ≠ [] ∧
    ¬ ∃ d, ((handleMessageUpdate specExternals cfgMsgEnd wStateC4bad Role.assistant
        wSubC4bad).1).cumulativeStreamedText =
      wStateC4bad.cumulativeStreamedText ++ '\n' :: d := by
  refine ⟨by decide, by decide, by decide, ?_⟩
  rintro ⟨d, hd⟩
  have hlen := congrArg List.length hd
  rw [show (handleMessageUpdate specExternals cfgMsgEnd wStateC4bad Role.assistant
      wSubC4bad).1 = wStateC4bad from by decide] at hlen
  rw [List.length_append] at hlen
  simp at hlen

/-- The C4 witness state: current block 0, cumulative and pending text `"A"`. -/
def wStateC4 : SessState :=
  { initialState with
      currentTextContentIndex := 0,
      cumulativeStreamedText := txtA, blockBuffer := txtA, deltaBuffer := txtA }

/-- The C4 witness event: block `"B"` beginning at index 1. -/
def wSubC4 : SubEvent := ⟨EvtType.text_delta, txtB, [], 1⟩

/-- Witness for C4 at the block transition 0 → 1 with cumulative text `"A"`. -/
theorem boundary_transition_effects_witness :
    wStateC4.cumulativeStreamedText ≠ [] ∧
      ∃ d, ((handleMessageUpdate specExternals cfgMsgEnd wStateC4 Role.assistant
          wSubC4).1).cumulativeStreamedText =
        wStateC4.cumulativeStreamedText ++ '\n' :: d :=
  ⟨by decide,
    (boundary_transition_effects specExternals cfgMsgEnd wStateC4 wSubC4
      (by decide) (by decide) (by decide) (by decide)).2.2.2.1 (by decide)⟩

lemma blockRepliesOf_append (l1 l2 : List Output) :
    blockRepliesOf (l1 ++ l2) = blockRepliesOf l1 ++ blockRepliesOf l2 :=
  List.filterMap_append l1 l2 _

/-- The normalized-distinctness relation used for block-reply dedup. -/
def normDistinct (ext : Externals) (a b : Str) : Prop :=
  ext.normalize a ≠ ext.normalize b

lemma emitBlockChunkModel_dedup (ext : Externals) (s : SessState) (t : Str) :
    (∀ n ∈ s.messagingToolSentTextsNormalized,
      n ∈ ((emitBlockChunkModel ext s t).1).messagingToolSentTextsNormalized)
    ∧ ∀ x ∈ blockRepliesOf (emitBlockChunkModel ext s t).2,
        ext.normalize x ∉ s.messagingToolSentTextsNormalized ∧
        ext.normalize x ∈ ((emitBlockChunkModel ext s t).1).messagingToolSentTextsNormalized := by
  simp only [emitBlockChunkModel]
  split
  · exact ⟨fun n hn => hn, fun x hx => by simp [blockRepliesOf] at hx⟩
  · split
    · exact ⟨fun n hn => hn, fun x hx => by simp [blockRepliesOf] at hx⟩
    · next hni =>
      constructor
      · intro n hn
        exact List.mem_cons_of_mem _ hn
      · intro x hx
        have hxt : x = t := by
          simpa [blockRepliesOf] using hx
        subst hxt
        refine ⟨fun hmem => hni ?_, List.mem_cons_self _ _⟩
        exact List.elem_iff.mpr hmem

lemma textEndFlush_dedup (ext : Externals) (cfg : Config) (s : SessState)
    (t : EvtType) :
    (∀ n ∈ s.messagingToolSentTextsNormalized,
      n ∈ ((textEndFlush ext cfg s t).1).messagingToolSentTextsNormalized)
    ∧ ∀ x ∈ blockRepliesOf (textEndFlush ext cfg s t).2,
        ext.normalize x ∉ s.messagingToolSentTextsNormalized ∧
        ext.normalize x ∈ ((textEndFlush ext cfg s t).1).messagingToolSentTextsNormalized := by
  unfold textEndFlush
  split
  · split
    · exact emitBlockChunkModel_dedup ext s s.blockBuffer
    · exact ⟨fun n hn => hn, fun x hx => by simp [blockRepliesOf] at hx⟩
  · exact ⟨fun n hn => hn, fun x hx => by simp [blockRepliesOf] at hx⟩

lemma noBlock_emissionPhase (ext : Externals) (cfg : Config) (s : SessState)
    (chunk : Str) : blockRepliesOf (emissionPhase ext cfg s chunk).2 = [] := by
  simp only [emissionPhase]
  split
  · rfl
  · split
    · simp only [blockRepliesOf, List.filterMap_cons]
      repeat' split
      all_goals rfl
    · rfl

lemma updateCore_dedup (ext : Externals) (cfg : Config) (s : SessState)
    (sub : SubEvent) :
    (∀ n ∈ s.messagingToolSentTextsNormalized,
      n ∈ ((updateCore ext cfg s sub).1).messagingToolSentTextsNormalized)
    ∧ (∀ x ∈ blockRepliesOf (updateCore ext cfg s sub).2,
        ext.normalize x ∉ s.messagingToolSentTextsNormalized ∧
        ext.normalize x ∈ ((updateCore ext cfg s sub).1).messagingToolSentTextsNormalized)
    ∧ List.Pairwise (normDistinct ext) (blockRepliesOf (updateCore ext cfg s sub).2) := by
  have hbs : (bufferedState s sub).messagingToolSentTextsNormalized =
      s.messagingToolSentTextsNormalized := by
    unfold bufferedState indexTracked
    split <;> split <;> rfl
  have he := (emissionPhase_frame ext cfg (bufferedState s sub) (chunkOf s sub)).2.2.2.2.1
  have hoR : blockRepliesOf
      (if cfg.streamReasoning = true then
        (let r := ext.extractThinkingStream (bufferedState s sub).deltaBuffer;
          if r ≠ [] then [Output.reasoningStream r] else [])
      else []) = [] := by
    split
    · dsimp only
      split <;> rfl
    · rfl
  have hE := noBlock_emissionPhase ext cfg (bufferedState s sub) (chunkOf s sub)
  obtain ⟨hmono, hnew⟩ := textEndFlush_dedup ext cfg
    (emissionPhase ext cfg (bufferedState s sub) (chunkOf s sub)).1 sub.type
  simp only [updateCore, blockRepliesOf_append, hoR, hE, List.nil_append]
  rw [he, hbs] at hmono hnew
  refine ⟨hmono, hnew, ?_⟩
  -- at most one reply comes out of the flush
  have : ∀ (u : SessState) (v : Str),
      List.Pairwise (normDistinct ext) (blockRepliesOf (emitBlockChunkModel ext u v).2) := by
    intro u v
    simp only [emitBlockChunkModel]
    split
    · simp [blockRepliesOf]
    · split
      · simp [blockRepliesOf]
      · simp [blockRepliesOf]
  unfold textEndFlush
  split
  · split
    · exact this _ _
    · simp [blockRepliesOf]
  · simp [blockRepliesOf]

/-- One handler step is dedup-correct relative to a prior sent set `S`: the
sent set only grows, every block reply it emits is fresh for `S` and gets
recorded, and its own replies are pairwise normalized-distinct. -/
def DedupStep (ext : Externals) (S : List Str) (r : SessState × List Output) : Prop :=
  (∀ n ∈ S, n ∈ r.1.messagingToolSentTextsNormalized)
  ∧ (∀ x ∈ blockRepliesOf r.2,
      ext.normalize x ∉ S ∧ ext.normalize x ∈ r.1.messagingToolSentTextsNormalized)
  ∧ List.Pairwise (normDistinct ext) (blockRepliesOf r.2)

lemma dedupStep_refl (ext : Externals) (s : SessState) :
    DedupStep ext s.messagingToolSentTextsNormalized (s, []) := by
  refine ⟨fun n hn => hn, ?_, ?_⟩
  · intro x hx
    simp [blockRepliesOf] at hx
  · simp [blockRepliesOf]

lemma dedupStep_comp (ext : Externals) (S : List Str)
    (r1 r2 : SessState × List Output)
    (h1 : DedupStep ext S r1)
    (h2 : DedupStep ext r1.1.messagingToolSentTextsNormalized r2) :
    DedupStep ext S (r2.1, r1.2 ++ r2.2) := by
  obtain ⟨m1, n1, p1⟩ := h1
  obtain ⟨m2, n2, p2⟩ := h2
  refine ⟨fun n hn => m2 n (m1 n hn), ?_, ?_⟩
  · intro x hx
    rw [blockRepliesOf_append] at hx
    rcases List.mem_append.mp hx with hx1 | hx2
    · exact ⟨(n1 x hx1).1, m2 _ (n1 x hx1).2⟩
    · exact ⟨fun hmem => (n2 x hx2).1 (m1 _ hmem), (n2 x hx2).2⟩
  · rw [blockRepliesOf_append]
    refine (List.pairwise_append).mpr ⟨p1, p2, ?_⟩
    intro x hx1 y hy2 hxy
    exact (n2 y hy2).1 (hxy ▸ (n1 x hx1).2)

lemma emitBlockChunkModel_pairwise (ext : Externals) (u : SessState) (v : Str) :
    List.Pairwise (normDistinct ext) (blockRepliesOf (emitBlockChunkModel ext u v).2) := by
  simp only [emitBlockChunkModel]
  split
  · simp [blockRepliesOf]
  · split
    · simp [blockRepliesOf]
    · simp [blockRepliesOf]

lemma boundaryTransition_dedupStep (ext : Externals) (s : SessState) :
    DedupStep ext s.messagingToolSentTextsNormalized (boundaryTransition ext s) := by
  unfold DedupStep
  simp only [boundaryTransition]
  split
  · next hb =>
    obtain ⟨hmono, hnew⟩ := emitBlockChunkModel_dedup ext s s.blockBuffer
    refine ⟨?_, ?_, ?_⟩
    · intro n hn
      split <;> exact hmono n hn
    · intro x hx
      refine ⟨(hnew x hx).1, ?_⟩
      split <;> exact (hnew x hx).2
    · exact emitBlockChunkModel_pairwise ext s s.blockBuffer
  · refine ⟨?_, ?_, ?_⟩
    · intro n hn
      split <;> exact hn
    · intro x hx
      simp [blockRepliesOf] at hx
    · simp [blockRepliesOf]

lemma updateCore_dedupStep (ext : Externals) (cfg : Config) (s : SessState)
    (sub : SubEvent) :
    DedupStep ext s.messagingToolSentTextsNormalized (updateCore ext cfg s sub) :=
  updateCore_dedup ext cfg s sub

lemma handleMessageUpdate_dedupStep (ext : Externals) (cfg : Config)
    (s : SessState) (role : Role) (sub : SubEvent) :
    DedupStep ext s.messagingToolSentTextsNormalized
      (handleMessageUpdate ext cfg s role sub) := by
  simp only [handleMessageUpdate]
  split
  · exact dedupStep_refl ext s
  · split
    · exact dedupStep_refl ext s
    · split
      · exact dedupStep_refl ext s
      · split
        · exact dedupStep_comp ext _ (boundaryTransition ext s)
            (updateCore ext cfg (boundaryTransition ext s).1 sub)
            (boundaryTransition_dedupStep ext s)
            (updateCore_dedupStep ext cfg (boundaryTransition ext s).1 sub)
        · exact updateCore_dedupStep ext cfg s sub

lemma runUpdates_dedupStep (ext : Externals) (cfg : Config) :
    ∀ (subs : List SubEvent) (s : SessState),
      DedupStep ext s.messagingToolSentTextsNormalized (runUpdates ext cfg s subs)
  | [], s => dedupStep_refl ext s
  | e :: rest, s => by
    have h1 := handleMessageUpdate_dedupStep ext cfg s Role.assistant e
    have h2 := runUpdates_dedupStep ext cfg rest
      (handleMessageUpdate ext cfg s Role.assistant e).1
    simp only [runUpdates]
    exact dedupStep_comp ext _ _ _ h1 h2

/-- The C8 counterexample texts: a block `"Hi"` followed by a block that is
pure directive `"[[x]]"`. -/
def txtHi : Str := "Hi".toList

def txtDirX : Str := "[[x]]".toList

def txtHiNl : Str := "Hi\n".toList

/-- The C8 counterexample stream: blocks `"Hi"` (index 0) and `"[[x]]"`
(index 1), then a `message_end` resending both blocks. -/
def c8events : List Event :=
  [Event.msgStart Role.assistant,
   Event.msgUpdate Role.assistant ⟨EvtType.text_delta, txtHi, [], 0⟩,
   Event.msgUpdate Role.assistant ⟨EvtType.text_delta, txtDirX, [], 1⟩,
   Event.msgEnd ⟨Role.assistant, [Block.text txtHi, Block.text txtDirX]⟩]

/-- Counterexample to C8 as stated: the `message_end` handler dedups the final
block reply on the raw pre-directive text but emits the directive-stripped
text, so the stream `"Hi"` then `"[[x]]"` produces the block replies `"Hi"`
and `"Hi\n"`, whose normalized texts are both `"hi"` — a second block reply
for an already-sent normalized text. -/
theorem blockReply_dedup_counterexample :
    blockRepliesOf (runEvents specExternals cfgMsgEnd initialState c8events).2
      = [txtHi, txtHiNl]
    ∧ specNormalize txtHi = specNormalize txtHiNl
    ∧ ¬ List.Pairwise (normDistinct specExternals)
        (blockRepliesOf (runEvents specExternals cfgMsgEnd initialState c8events).2) := by
  have heq : blockRepliesOf (runEvents specExternals cfgMsgEnd initialState c8events).2
      = [txtHi, txtHiNl] := by decide
  refine ⟨heq, by decide, ?_⟩
  intro h
  rw [heq] at h
  have hd := (List.pairwise_cons.mp h).1 txtHiNl (List.mem_singleton.mpr rfl)
  exact hd (by decide)

/-- C8 amended — Streaming block-reply deduplication: every block reply
emitted on the `message_update` path is fresh — its normalized text is not in
the accumulated sent-text dedup set (which also honors out-of-band
messaging-tool deliveries) — and the replies of any update stream are
pairwise distinct under normalization.  The `message_end` final reply,
however, checks the dedup set against the raw terminal text while emitting
the directive-stripped text, so it can repeat an already-sent normalized
text (see the counterexample). -/
theorem blockReply_dedup (ext : Externals) (cfg : Config) (s : SessState)
    (subs : List SubEvent) :
    List.Pairwise (normDistinct ext) (blockRepliesOf (runUpdates ext cfg s subs).2)
    ∧ ∀ x ∈ blockRepliesOf (runUpdates ext cfg s subs).2,
        ext.normalize x ∉ s.messagingToolSentTextsNormalized := by
  obtain ⟨-, hnew, hpair⟩ := runUpdates_dedupStep ext cfg subs s
  exact ⟨hpair, fun x hx => (hnew x hx).1⟩
